import Mathlib

/-!
# Verification of the buy-vs-rent break-even simulator

A shallow embedding, over the real numbers, of `simulation.py`: the
financial primitives (`pmt`, `grow_monthly`, `deflator`, …), the variable
mortgage-rate resolver `rate_for_month`, and the month-by-month simulation
loop `simulate_break_even`.  Floating-point arithmetic in the source is
idealised as exact real arithmetic; Python's `ValueError`s become the
`Except String` monad.  Machine integers (`int` month counts) are embedded
as `ℕ`/`ℤ`.

The second half of the file settles the spec's claims about this code,
including a certified rational interval-arithmetic evaluation of the
end-to-end default scenario over its full 361-month horizon.
-/

open scoped Classical

noncomputable section

/-! ## Financial primitives (`simulation.py` lines 7–32) -/

/-- `monthly_rate(annual_rate) = annual_rate / 12.0`. -/
def monthly_rate (annual_rate : ℝ) : ℝ := annual_rate / 12

/-- `pmt(principal, annual_rate, months)`: monthly payment for an
amortizing loan; handles 0% (and `months ≤ 0`) via explicit branches. -/
def pmt (principal annual_rate : ℝ) (months : ℤ) : ℝ :=
  if months ≤ 0 then 0
  else
    let r := monthly_rate annual_rate
    if |r| < 1e-12 then principal / (months : ℝ)
    else
      let factor := (1 + r) ^ months.toNat
      principal * (r * factor) / (factor - 1)

/-- `grow_monthly(value0, annual_growth, month_index)`: compound growth with
an annual rate applied monthly, `value0 * (1+g) ** (month_index / 12.0)`. -/
def grow_monthly (value0 annual_growth : ℝ) (month_index : ℕ) : ℝ :=
  value0 * (1 + annual_growth) ^ ((month_index : ℝ) / 12)

/-- `selling_cost(value, pct) = value * pct`. -/
def selling_cost (value sell_cost_pct : ℝ) : ℝ := value * sell_cost_pct

/-- `closing_cost(value, pct) = value * pct`. -/
def closing_cost (value close_cost_pct : ℝ) : ℝ := value * close_cost_pct

/-- `deflator(inflation, m) = (1+inflation) ** (m / 12.0)`; dividing a
nominal amount by this yields its real (today's-dollar) value. -/
def deflator (inflation_annual : ℝ) (month_index : ℕ) : ℝ :=
  (1 + inflation_annual) ^ ((month_index : ℝ) / 12)

/-! ## Inputs (`ScenarioParams`, lines 37–74) -/

/-- The immutable input record of one simulation run. -/
structure ScenarioParams where
  purchase_price : ℝ
  down_payment : ℝ
  term_years : ℕ
  home_appreciation : ℝ
  investment_return : ℝ
  inflation : ℝ
  fixed_mortgage_rate : Option ℝ := none
  variable_rate_schedule : Option (List (ℕ × ℝ)) := none
  rent_monthly : ℝ := 0
  maintenance_monthly : ℝ := 0
  insurance_monthly : ℝ := 0
  other_owner_costs_monthly : ℝ := 0
  rent_growth : ℝ := 0.03
  maintenance_growth : ℝ := 0.03
  insurance_growth : ℝ := 0.03
  other_owner_costs_growth : ℝ := 0.03
  buy_closing_cost_pct : ℝ := 0.02
  sell_cost_pct : ℝ := 0.06
  max_years : ℕ := 30
  report_real : Bool := true

/-! ## Rate schedule logic (`rate_for_month`, lines 79–92) -/

/-- Stable insertion of one `(start_month, rate)` pair: the new pair is
placed after every already-present pair whose start month is `≤` its own,
so that inserting the schedule entries left to right reproduces Python's
stable `sorted(schedule, key=lambda x: x[0])`. -/
def insertByStart (p : ℕ × ℝ) : List (ℕ × ℝ) → List (ℕ × ℝ)
  | [] => [p]
  | q :: rest => if q.1 ≤ p.1 then q :: insertByStart p rest else p :: q :: rest

/-- Stable sort of a rate schedule by `start_month` ascending
(`sorted(schedule, key=lambda x: x[0])`). -/
def sortSchedule (schedule : List (ℕ × ℝ)) : List (ℕ × ℝ) :=
  schedule.foldl (fun acc p => insertByStart p acc) []

/-- The scanning loop of `rate_for_month`: walk the sorted schedule,
updating `current` while `month ≥ start_m`, and stop (`break`) at the
first entry whose start month exceeds `month`. -/
def scanRate (month : ℕ) : List (ℕ × ℝ) → ℝ → ℝ
  | [], current => current
  | (start_m, r) :: rest, current =>
    if start_m ≤ month then scanRate month rest r else current

/-- The error message of `rate_for_month` when no rate source is present. -/
def noRateMsg : String := "Provide either fixed_mortgage_rate or variable_rate_schedule."

/-- `rate_for_month(month, fixed_rate, schedule)`: fixed rate if present,
else the schedule entry in force at `month`; `ValueError` (here: `.error`)
when neither source is supplied. -/
def rate_for_month (month : ℕ) (fixed_rate : Option ℝ)
    (schedule : Option (List (ℕ × ℝ))) : Except String ℝ :=
  match fixed_rate with
  | some r => .ok r
  | none =>
    match schedule with
    | none => .error noRateMsg
    | some [] => .error noRateMsg
    | some (p :: rest) =>
      let schedule_sorted := sortSchedule (p :: rest)
      .ok (scanRate month schedule_sorted schedule_sorted.headI.2)

/-- Totalised rate resolver used inside the simulation loop: the loop only
runs after `rate_for_month 0` has succeeded, in which case
`rate_for_month` succeeds (with this value) at every month. -/
def rateValue (month : ℕ) (fixed_rate : Option ℝ)
    (schedule : Option (List (ℕ × ℝ))) : ℝ :=
  match rate_for_month month fixed_rate schedule with
  | .ok r => r
  | .error _ => 0

/-! ## Simulation (`simulate_break_even`, lines 97–229) -/

/-- One recorded history row (the dict appended at lines 200–210). -/
structure CheckpointRow where
  month : ℕ
  year : ℝ
  mortgage_rate : ℝ
  mortgage_balance : ℝ
  home_value : ℝ
  owner_outflow : ℝ
  rent : ℝ
  nw_buy : ℝ
  nw_rent : ℝ

/-- The engine's mutable per-run state (balance, payment, the two
portfolios, break-even tracking and accumulated history). -/
structure SimState where
  balance : ℝ
  payment : ℝ
  last_rate : ℝ
  port_rent : ℝ
  port_buy : ℝ
  break_even_month : Option ℕ
  history : List CheckpointRow

/-- The dictionary returned by `simulate_break_even` (lines 218–229). -/
structure SimResult where
  break_even_month : Option ℕ
  break_even_years : Option ℝ
  used_real_dollars : Bool
  history : List CheckpointRow
  upfront_buy_cash : ℝ
  buy_closing_cost : ℝ
  sell_cost_pct : ℝ
  buy_closing_cost_pct : ℝ

/-- The error message raised when the down payment exceeds the price. -/
def downMsg : String := "Down payment cannot exceed purchase price."

/-- The body of the `for m in range(horizon_months + 1)` loop
(lines 130–216), one month's transition of the engine state. -/
def stepMonth (params : ScenarioParams) (m : ℕ) (st : SimState) : SimState :=
  let term_months := params.term_years * 12
  let current_rate :=
    rateValue m params.fixed_mortgage_rate params.variable_rate_schedule
  let months_remaining : ℕ := term_months - m
  let payment :=
    if |current_rate - st.last_rate| > 1e-12 then
      (if 0 < months_remaining then
        pmt st.balance current_rate (months_remaining : ℤ) else 0)
    else st.payment
  let last_rate :=
    if |current_rate - st.last_rate| > 1e-12 then current_rate else st.last_rate
  let rent_t := grow_monthly params.rent_monthly params.rent_growth m
  let maint_t := grow_monthly params.maintenance_monthly params.maintenance_growth m
  let ins_t := grow_monthly params.insurance_monthly params.insurance_growth m
  let other_t :=
    grow_monthly params.other_owner_costs_monthly params.other_owner_costs_growth m
  let balance :=
    if m < term_months ∧ st.balance > 1e-8 then
      let r_m := monthly_rate current_rate
      let interest := st.balance * r_m
      let principal_paid := max (payment - interest) 0
      let principal_paid := min principal_paid st.balance
      st.balance - principal_paid
    else st.balance
  let owner_outflow :=
    (if m < term_months then payment else 0) + maint_t + ins_t + other_t
  let diff := owner_outflow - rent_t
  let port_rent := st.port_rent * (1 + monthly_rate params.investment_return)
  let port_buy := st.port_buy * (1 + monthly_rate params.investment_return)
  let port_rent := port_rent + max diff 0 * 0
  let port_rent := if diff > 0 then port_rent + diff else port_rent
  let port_buy := if diff > 0 then port_buy else port_buy + (-diff)
  let home_value := grow_monthly params.purchase_price params.home_appreciation m
  let net_sale_proceeds := home_value - selling_cost home_value params.sell_cost_pct
  let liquidation_equity := max (net_sale_proceeds - balance) 0
  let nw_buy := liquidation_equity + port_buy
  let nw_rent := port_rent
  let nw_buy_cmp :=
    if params.report_real then nw_buy / deflator params.inflation m else nw_buy
  let nw_rent_cmp :=
    if params.report_real then nw_rent / deflator params.inflation m else nw_rent
  let break_even_month :=
    if st.break_even_month = none ∧ nw_buy_cmp ≥ nw_rent_cmp then some m
    else st.break_even_month
  let history :=
    if m % 12 = 0 ∨ break_even_month = some m then
      st.history ++ [⟨m, (m : ℝ) / 12, current_rate, balance, home_value,
        owner_outflow, rent_t, nw_buy_cmp, nw_rent_cmp⟩]
    else st.history
  ⟨balance, payment, last_rate, port_rent, port_buy, break_even_month, history⟩

/-- The early-exit test at lines 215–216: stop once a break-even month is
recorded and the current month has reached it. -/
def stopNow (m : ℕ) (st : SimState) : Bool :=
  match st.break_even_month with
  | some be => be ≤ m
  | none => false

/-- The simulation loop driver: runs `stepMonth` for consecutive months
starting at `m` while fuel lasts and the early exit has not fired;
also counts the number of iterations executed. -/
def runLoop (params : ScenarioParams) :
    ℕ → ℕ → SimState → SimState × ℕ
  | 0, _, st => (st, 0)
  | fuel + 1, m, st =>
    let st' := stepMonth params m st
    if stopNow m st' then (st', 1)
    else
      let (stf, n) := runLoop params fuel (m + 1) st'
      (stf, n + 1)

/-- The state before month 0: portfolios, balance, initial payment and
rate as set up at lines 104–128. -/
def initState (params : ScenarioParams) : SimState :=
  let P0 := params.purchase_price
  let D := params.down_payment
  let L0 := P0 - D
  let term_months := params.term_years * 12
  let buy_close := closing_cost P0 params.buy_closing_cost_pct
  let upfront_buy_cash := D + buy_close
  let initial_rate :=
    rateValue 0 params.fixed_mortgage_rate params.variable_rate_schedule
  ⟨L0, pmt L0 initial_rate (term_months : ℤ), initial_rate,
    upfront_buy_cash, 0, none, []⟩

/-- Packaging of the final state into the returned dictionary
(lines 218–229). -/
def mkResult (params : ScenarioParams) (st : SimState) : SimResult :=
  let P0 := params.purchase_price
  let buy_close := closing_cost P0 params.buy_closing_cost_pct
  { break_even_month := st.break_even_month
    break_even_years :=
      match st.break_even_month with
      | some b => some ((b : ℝ) / 12)
      | none => none
    used_real_dollars := params.report_real
    history := st.history
    upfront_buy_cash := params.down_payment + buy_close
    buy_closing_cost := buy_close
    sell_cost_pct := params.sell_cost_pct
    buy_closing_cost_pct := params.buy_closing_cost_pct }

/-- `simulate_break_even(params)`: validate, then run the month loop over
`range(horizon_months + 1)` with the early break-even exit. -/
def simulate_break_even (params : ScenarioParams) : Except String SimResult :=
  let L0 := params.purchase_price - params.down_payment
  if L0 < 0 then .error downMsg
  else
    match rate_for_month 0 params.fixed_mortgage_rate params.variable_rate_schedule with
    | .error e => .error e
    | .ok _ =>
      let horizon_months := params.max_years * 12
      .ok (mkResult params
        (runLoop params (horizon_months + 1) 0 (initState params)).1)

/-- Number of loop iterations the run executes (0 when it errors out). -/
def simIterations (params : ScenarioParams) : ℕ :=
  let L0 := params.purchase_price - params.down_payment
  if L0 < 0 then 0
  else
    match rate_for_month 0 params.fixed_mortgage_rate params.variable_rate_schedule with
    | .error _ => 0
    | .ok _ =>
      let horizon_months := params.max_years * 12
      (runLoop params (horizon_months + 1) 0 (initState params)).2

/-! ## Observables of one month's transition

Named versions of the intermediate quantities of `stepMonth`, used to
state and prove properties of the run.  Each is definitionally equal to
the corresponding `let` binding in `stepMonth`. -/

/-- `term_months = term_years * 12`. -/
def termMonths (p : ScenarioParams) : ℕ := p.term_years * 12

/-- `horizon_months = max_years * 12`. -/
def horizonMonths (p : ScenarioParams) : ℕ := p.max_years * 12

/-- The effective mortgage rate used at month `m`. -/
def rateAt (p : ScenarioParams) (m : ℕ) : ℝ :=
  rateValue m p.fixed_mortgage_rate p.variable_rate_schedule

/-- The payment in force during month `m` (after the recast check). -/
def paymentUpd (p : ScenarioParams) (m : ℕ) (st : SimState) : ℝ :=
  if |rateAt p m - st.last_rate| > 1e-12 then
    (if 0 < termMonths p - m then
      pmt st.balance (rateAt p m) ((termMonths p - m : ℕ) : ℤ) else 0)
  else st.payment

/-- The last applied rate after month `m`'s recast check. -/
def lastRateUpd (p : ScenarioParams) (m : ℕ) (st : SimState) : ℝ :=
  if |rateAt p m - st.last_rate| > 1e-12 then rateAt p m else st.last_rate

/-- The mortgage balance after month `m`'s amortization step. -/
def balanceUpd (p : ScenarioParams) (m : ℕ) (st : SimState) : ℝ :=
  if m < termMonths p ∧ st.balance > 1e-8 then
    st.balance -
      min (max (paymentUpd p m st - st.balance * monthly_rate (rateAt p m)) 0)
        st.balance
  else st.balance

/-- This month's rent. -/
def rentAt (p : ScenarioParams) (m : ℕ) : ℝ :=
  grow_monthly p.rent_monthly p.rent_growth m

/-- The owner's monthly outflow at month `m`. -/
def outflowUpd (p : ScenarioParams) (m : ℕ) (st : SimState) : ℝ :=
  (if m < termMonths p then paymentUpd p m st else 0) +
    grow_monthly p.maintenance_monthly p.maintenance_growth m +
    grow_monthly p.insurance_monthly p.insurance_growth m +
    grow_monthly p.other_owner_costs_monthly p.other_owner_costs_growth m

/-- `diff = owner_outflow - rent` at month `m`. -/
def diffUpd (p : ScenarioParams) (m : ℕ) (st : SimState) : ℝ :=
  outflowUpd p m st - rentAt p m

/-- The renter's portfolio after month `m` (growth, then cash flow). -/
def portRentUpd (p : ScenarioParams) (m : ℕ) (st : SimState) : ℝ :=
  let pr := st.port_rent * (1 + monthly_rate p.investment_return) +
    max (diffUpd p m st) 0 * 0
  if diffUpd p m st > 0 then pr + diffUpd p m st else pr

/-- The owner's portfolio after month `m`. -/
def portBuyUpd (p : ScenarioParams) (m : ℕ) (st : SimState) : ℝ :=
  let pb := st.port_buy * (1 + monthly_rate p.investment_return)
  if diffUpd p m st > 0 then pb else pb + (-(diffUpd p m st))

/-- The nominal home value at month `m`. -/
def homeValueAt (p : ScenarioParams) (m : ℕ) : ℝ :=
  grow_monthly p.purchase_price p.home_appreciation m

/-- Owner net worth (nominal) after month `m`: liquidation equity plus
the owner's portfolio. -/
def nwBuyUpd (p : ScenarioParams) (m : ℕ) (st : SimState) : ℝ :=
  max (homeValueAt p m - selling_cost (homeValueAt p m) p.sell_cost_pct -
      balanceUpd p m st) 0 + portBuyUpd p m st

/-- Owner net worth on the comparison basis after month `m`. -/
def nwBuyCmpUpd (p : ScenarioParams) (m : ℕ) (st : SimState) : ℝ :=
  if p.report_real then nwBuyUpd p m st / deflator p.inflation m
  else nwBuyUpd p m st

/-- Renter net worth on the comparison basis after month `m`. -/
def nwRentCmpUpd (p : ScenarioParams) (m : ℕ) (st : SimState) : ℝ :=
  if p.report_real then portRentUpd p m st / deflator p.inflation m
  else portRentUpd p m st

/-- The break-even tracker after month `m`. -/
def beUpd (p : ScenarioParams) (m : ℕ) (st : SimState) : Option ℕ :=
  if st.break_even_month = none ∧ nwBuyCmpUpd p m st ≥ nwRentCmpUpd p m st
  then some m else st.break_even_month

/-- The row that month `m` would append to the history. -/
def rowUpd (p : ScenarioParams) (m : ℕ) (st : SimState) : CheckpointRow :=
  ⟨m, (m : ℝ) / 12, rateAt p m, balanceUpd p m st, homeValueAt p m,
    outflowUpd p m st, rentAt p m, nwBuyCmpUpd p m st, nwRentCmpUpd p m st⟩

/-- The history after month `m`. -/
def histUpd (p : ScenarioParams) (m : ℕ) (st : SimState) : List CheckpointRow :=
  if m % 12 = 0 ∨ beUpd p m st = some m then st.history ++ [rowUpd p m st]
  else st.history

/-- `stepMonth` written out field by field. -/
theorem stepMonth_eq (p : ScenarioParams) (m : ℕ) (st : SimState) :
    stepMonth p m st =
      ⟨balanceUpd p m st, paymentUpd p m st, lastRateUpd p m st,
        portRentUpd p m st, portBuyUpd p m st, beUpd p m st,
        histUpd p m st⟩ := rfl

/-- The canonical (never-early-exiting) state trace: `stateAt p m` is the
engine state just before month `m` is processed.  Because the loop's early
exit only skips months after the one at which it fires, every state a run
actually visits is a `stateAt`. -/
def stateAt (p : ScenarioParams) : ℕ → SimState
  | 0 => initState p
  | m + 1 => stepMonth p m (stateAt p m)

/-- The break-even comparison tested at month `m`: owner net worth on the
comparison basis has reached renter net worth on the comparison basis. -/
def crossAt (p : ScenarioParams) (m : ℕ) : Prop :=
  nwBuyCmpUpd p m (stateAt p m) ≥ nwRentCmpUpd p m (stateAt p m)

/-- The first crossing month < `m`, if any. -/
def firstCrossBefore (p : ScenarioParams) : ℕ → Option ℕ
  | 0 => none
  | m + 1 =>
    match firstCrossBefore p m with
    | some k => some k
    | none => if crossAt p m then some m else none

/-- The engine's break-even tracker computes `firstCrossBefore`. -/
theorem stateAt_break_even (p : ScenarioParams) (m : ℕ) :
    (stateAt p m).break_even_month = firstCrossBefore p m := by
  induction m with
  | zero => rfl
  | succ m ih =>
    show (stepMonth p m (stateAt p m)).break_even_month = _
    rw [stepMonth_eq]
    show beUpd p m (stateAt p m) = _
    rw [beUpd, firstCrossBefore, ih]
    rcases h : firstCrossBefore p m with _ | k
    · simp only [true_and]
      rfl
    · simp

/-- Once found, the first crossing is stable. -/
theorem firstCrossBefore_mono (p : ScenarioParams) {m k : ℕ}
    (h : firstCrossBefore p m = some k) :
    ∀ n, m ≤ n → firstCrossBefore p n = some k := by
  intro n hn
  induction n with
  | zero =>
    have hm0 : m = 0 := Nat.le_zero.mp hn
    rw [← hm0]; exact h
  | succ n ih =>
    rcases Nat.lt_or_ge m (n + 1) with hlt | hge
    · have := ih (by omega)
      rw [firstCrossBefore, this]
    · have : m = n + 1 := le_antisymm hn hge
      rw [← this, h]

/-- What a `some` answer of `firstCrossBefore` means. -/
theorem firstCrossBefore_some (p : ScenarioParams) {m k : ℕ}
    (h : firstCrossBefore p m = some k) :
    k < m ∧ crossAt p k ∧ ∀ j, j < k → ¬ crossAt p j := by
  induction m with
  | zero => simp [firstCrossBefore] at h
  | succ m ih =>
    rw [firstCrossBefore] at h
    rcases hm : firstCrossBefore p m with _ | k'
    · rw [hm] at h
      by_cases hc : crossAt p m
      · rw [if_pos hc] at h
        obtain rfl : m = k := Option.some.inj h
        refine ⟨by omega, hc, fun j hj hcj => ?_⟩
        -- a crossing before m would have made firstCrossBefore p m ≠ none
        have : firstCrossBefore p (j + 1) ≠ none := by
          rw [firstCrossBefore]
          rcases hj' : firstCrossBefore p j with _ | _
          · simp [hj', hcj]
          · simp [hj']
        rcases hj'' : firstCrossBefore p (j + 1) with _ | k''
        · exact this hj''
        · have := firstCrossBefore_mono p hj'' m (by omega)
          rw [this] at hm; exact Option.noConfusion hm
      · rw [if_neg hc] at h; exact Option.noConfusion h
    · rw [hm] at h
      obtain rfl : k' = k := Option.some.inj h
      obtain ⟨h1, h2, h3⟩ := ih hm
      exact ⟨by omega, h2, h3⟩

/-- What a `none` answer of `firstCrossBefore` means. -/
theorem firstCrossBefore_none (p : ScenarioParams) {m : ℕ}
    (h : firstCrossBefore p m = none) :
    ∀ j, j < m → ¬ crossAt p j := by
  intro j hj hc
  have : firstCrossBefore p (j + 1) ≠ none := by
    rw [firstCrossBefore]
    rcases hj' : firstCrossBefore p j with _ | _ <;> simp [hj', hc]
  rcases hj'' : firstCrossBefore p (j + 1) with _ | k
  · exact this hj''
  · have := firstCrossBefore_mono p hj'' m (by omega)
    rw [this] at h; exact Option.noConfusion h

/-- Conversely, a crossing inside the window forces a `some` answer. -/
theorem firstCrossBefore_of_cross (p : ScenarioParams) {m j : ℕ}
    (hj : j < m) (hc : crossAt p j) : firstCrossBefore p m ≠ none := by
  intro h
  exact firstCrossBefore_none p h j hj hc

/-- Full characterization of the loop driver on the canonical trace: when
no crossing has happened before month `m`, running with `fuel` months of
fuel either stops right after the first crossing month in the window, or
exhausts the fuel. -/
theorem runLoop_spec (p : ScenarioParams) :
    ∀ fuel m, firstCrossBefore p m = none →
      runLoop p fuel m (stateAt p m) =
        match firstCrossBefore p (m + fuel) with
        | some k => (stateAt p (k + 1), k - m + 1)
        | none => (stateAt p (m + fuel), fuel) := by
  intro fuel
  induction fuel with
  | zero => intro m hm; simp [runLoop, hm]
  | succ fuel ih =>
    intro m hm
    rw [runLoop]
    have hst : stepMonth p m (stateAt p m) = stateAt p (m + 1) := rfl
    have hbe : (stateAt p (m + 1)).break_even_month = firstCrossBefore p (m + 1) :=
      stateAt_break_even p (m + 1)
    by_cases hc : crossAt p m
    · -- the loop stops right after month m
      have h1 : firstCrossBefore p (m + 1) = some m := by
        rw [firstCrossBefore, hm, if_pos hc]
      have hstop : stopNow m (stepMonth p m (stateAt p m)) = true := by
        rw [hst, stopNow, hbe, h1]
        simp
      rw [hstop]
      have h2 : firstCrossBefore p (m + (fuel + 1)) = some m :=
        firstCrossBefore_mono p h1 _ (by omega)
      rw [h2]
      simp [hst]
    · -- no crossing at m: the loop continues
      have h1 : firstCrossBefore p (m + 1) = none := by
        rw [firstCrossBefore, hm, if_neg hc]
      have hstop : stopNow m (stepMonth p m (stateAt p m)) = false := by
        rw [hst, stopNow, hbe, h1]
      rw [hstop]
      simp only [Bool.false_eq_true, if_false]
      have := ih (m + 1) h1
      rw [hst, this]
      have harith : m + 1 + fuel = m + (fuel + 1) := by omega
      rw [harith]
      rcases h2 : firstCrossBefore p (m + (fuel + 1)) with _ | k
      · rfl
      · have hk := firstCrossBefore_some p h2
        have hkm : m + 1 ≤ k := by
          by_contra hlt
          push_neg at hlt
          have : k < m + 1 := hlt
          have := firstCrossBefore_of_cross p this hk.2.1
          exact this h1
        simp only []
        congr 1
        omega

/-- `runLoop_spec`, fuel-exhaustion case. -/
theorem runLoop_none (p : ScenarioParams) (fuel m : ℕ)
    (h0 : firstCrossBefore p m = none)
    (h1 : firstCrossBefore p (m + fuel) = none) :
    runLoop p fuel m (stateAt p m) = (stateAt p (m + fuel), fuel) := by
  rw [runLoop_spec p fuel m h0, h1]

/-- `runLoop_spec`, early-stop case. -/
theorem runLoop_some (p : ScenarioParams) (fuel m k : ℕ)
    (h0 : firstCrossBefore p m = none)
    (h1 : firstCrossBefore p (m + fuel) = some k) :
    runLoop p fuel m (stateAt p m) = (stateAt p (k + 1), k - m + 1) := by
  rw [runLoop_spec p fuel m h0, h1]

/-- First crossing within the horizon if any, else the horizon: the month
at which the run's loop processes its last iteration. -/
def stopMonth (p : ScenarioParams) : ℕ :=
  match firstCrossBefore p (horizonMonths p + 1) with
  | some k => k
  | none => horizonMonths p

theorem stopMonth_le (p : ScenarioParams) : stopMonth p ≤ horizonMonths p := by
  rcases h : firstCrossBefore p (horizonMonths p + 1) with _ | k
  · simp [stopMonth, h]
  · have := (firstCrossBefore_some p h).1
    simp only [stopMonth, h]
    omega

theorem stopMonth_eq_of_some (p : ScenarioParams) {k : ℕ}
    (h : firstCrossBefore p (horizonMonths p + 1) = some k) :
    stopMonth p = k := by
  simp [stopMonth, h]

theorem stopMonth_eq_of_none (p : ScenarioParams)
    (h : firstCrossBefore p (horizonMonths p + 1) = none) :
    stopMonth p = horizonMonths p := by
  simp [stopMonth, h]

/-- When the validations pass, the run succeeds and returns the canonical
trace's state right after the stop month, having executed exactly
`stopMonth + 1` loop iterations. -/
theorem simulate_ok (p : ScenarioParams)
    (hdp : p.down_payment ≤ p.purchase_price)
    {r0 : ℝ}
    (hrate : rate_for_month 0 p.fixed_mortgage_rate p.variable_rate_schedule = .ok r0) :
    simulate_break_even p = .ok (mkResult p (stateAt p (stopMonth p + 1))) ∧
      simIterations p = stopMonth p + 1 := by
  have hL0 : ¬ (p.purchase_price - p.down_payment < 0) := by
    push_neg; linarith
  have hinit : initState p = stateAt p 0 := rfl
  have hrun : runLoop p (horizonMonths p + 1) 0 (stateAt p 0) =
      (stateAt p (stopMonth p + 1), stopMonth p + 1) := by
    rcases h : firstCrossBefore p (horizonMonths p + 1) with _ | k
    · have := runLoop_none p (horizonMonths p + 1) 0 rfl (by rw [Nat.zero_add]; exact h)
      rw [this, Nat.zero_add, stopMonth_eq_of_none p h]
    · have := runLoop_some p (horizonMonths p + 1) 0 k rfl (by rw [Nat.zero_add]; exact h)
      rw [this, stopMonth_eq_of_some p h, Nat.sub_zero]
  constructor
  · rw [simulate_break_even]
    simp only [if_neg hL0, hrate]
    rw [hinit]
    show Except.ok (mkResult p (runLoop p (horizonMonths p + 1) 0 (stateAt p 0)).1) = _
    rw [hrun]
  · rw [simIterations]
    simp only [if_neg hL0, hrate]
    rw [hinit]
    show (runLoop p (horizonMonths p + 1) 0 (stateAt p 0)).2 = _
    rw [hrun]

/-! ## Error behaviour -/

/-- `rate_for_month` errors exactly when neither rate source is present,
and then always with `noRateMsg`. -/
theorem rate_for_month_error_iff (m : ℕ) (f : Option ℝ)
    (s : Option (List (ℕ × ℝ))) (e : String) :
    rate_for_month m f s = .error e ↔
      (f = none ∧ (s = none ∨ s = some []) ∧ e = noRateMsg) := by
  rcases f with _ | r
  · rcases s with _ | l
    · simp [rate_for_month]
      exact comm
    · rcases l with _ | ⟨q, rest⟩
      · simp [rate_for_month]
        exact comm
      · simp [rate_for_month]
  · simp [rate_for_month]

/-- When some rate source is present, the resolver succeeds. -/
theorem rate_for_month_ok (m : ℕ) (f : Option ℝ) (s : Option (List (ℕ × ℝ)))
    (h : f ≠ none ∨ ∃ q rest, s = some (q :: rest)) :
    ∃ r, rate_for_month m f s = .ok r := by
  rcases f with _ | r
  · rcases h with h | ⟨q, rest, rfl⟩
    · exact absurd rfl h
    · exact ⟨_, rfl⟩
  · exact ⟨r, rfl⟩

/-- Inversion of a successful run: the validations passed and the result
is the canonical trace cut at the stop month. -/
theorem simulate_ok_inv (p : ScenarioParams) (res : SimResult)
    (h : simulate_break_even p = .ok res) :
    p.down_payment ≤ p.purchase_price ∧
      res = mkResult p (stateAt p (stopMonth p + 1)) := by
  rw [simulate_break_even] at h
  by_cases hL0 : p.purchase_price - p.down_payment < 0
  · rw [if_pos hL0] at h
    exact absurd h (by simp)
  · rw [if_neg hL0] at h
    refine ⟨by linarith [not_lt.mp hL0], ?_⟩
    rcases hr : rate_for_month 0 p.fixed_mortgage_rate p.variable_rate_schedule with e | r0
    · rw [hr] at h; exact absurd h (by simp)
    · rw [hr] at h
      have h2 := (simulate_ok p (by linarith [not_lt.mp hL0]) hr).1
      rw [simulate_break_even, if_neg hL0, hr] at h2
      have := h.symm.trans h2
      exact Except.ok.inj this

/-! ## Claim theorems -/

/-- **C3.** `run` raises an invalid-configuration error iff the down
payment exceeds the purchase price or no rate source is supplied; errors
exclude any (partial) result, and the two causes carry distinguishable
messages. -/
theorem claim_C3 (p : ScenarioParams) :
    ((∃ e, simulate_break_even p = .error e) ↔
      (p.purchase_price < p.down_payment ∨
        (p.fixed_mortgage_rate = none ∧
          (p.variable_rate_schedule = none ∨ p.variable_rate_schedule = some [])))) ∧
    (∀ e, simulate_break_even p = .error e → ∀ res, simulate_break_even p ≠ .ok res) ∧
    (p.purchase_price < p.down_payment → simulate_break_even p = .error downMsg) ∧
    (¬ p.purchase_price < p.down_payment → p.fixed_mortgage_rate = none →
      (p.variable_rate_schedule = none ∨ p.variable_rate_schedule = some []) →
      simulate_break_even p = .error noRateMsg) ∧
    downMsg ≠ noRateMsg := by
  have hdown : p.purchase_price < p.down_payment →
      simulate_break_even p = .error downMsg := by
    intro hlt
    rw [simulate_break_even, if_pos (by linarith)]
  have hnorate : ¬ p.purchase_price < p.down_payment → p.fixed_mortgage_rate = none →
      (p.variable_rate_schedule = none ∨ p.variable_rate_schedule = some []) →
      simulate_break_even p = .error noRateMsg := by
    intro hge hf hs
    have hL0 : ¬ (p.purchase_price - p.down_payment < 0) := by
      push_neg at hge ⊢; linarith
    rw [simulate_break_even, if_neg hL0]
    have : rate_for_month 0 p.fixed_mortgage_rate p.variable_rate_schedule =
        .error noRateMsg := by
      rw [rate_for_month_error_iff]
      exact ⟨hf, hs, rfl⟩
    rw [this]
  refine ⟨⟨?_, ?_⟩, ?_, hdown, hnorate, by decide⟩
  · rintro ⟨e, he⟩
    by_cases hlt : p.purchase_price < p.down_payment
    · exact Or.inl hlt
    · right
      have hL0 : ¬ (p.purchase_price - p.down_payment < 0) := by
        push_neg at hlt ⊢; linarith
      rw [simulate_break_even, if_neg hL0] at he
      rcases hr : rate_for_month 0 p.fixed_mortgage_rate p.variable_rate_schedule
        with e' | r0
      · have := (rate_for_month_error_iff 0 _ _ e').mp hr
        exact ⟨this.1, this.2.1⟩
      · rw [hr] at he
        exact absurd he (by simp)
  · rintro (hlt | ⟨hf, hs⟩)
    · exact ⟨downMsg, hdown hlt⟩
    · by_cases hlt : p.purchase_price < p.down_payment
      · exact ⟨downMsg, hdown hlt⟩
      · exact ⟨noRateMsg, hnorate hlt hf hs⟩
  · intro e he res hok
    rw [he] at hok
    exact Except.noConfusion hok

/-- Parameters whose down payment exceeds the price. -/
def paramsBadDown : ScenarioParams where
  purchase_price := 100
  down_payment := 200
  term_years := 30
  home_appreciation := 0.02
  investment_return := 0.07
  inflation := 0.03
  fixed_mortgage_rate := some 0.05

/-- A small valid parameter set with a fixed rate. -/
def paramsSmall : ScenarioParams where
  purchase_price := 100000
  down_payment := 20000
  term_years := 30
  home_appreciation := 0.02
  investment_return := 0.07
  inflation := 0.03
  fixed_mortgage_rate := some 0.05
  rent_monthly := 500
  max_years := 1

/-- Closed check of **C3** at concrete inputs: an over-sized down payment
errors with the down-payment message, distinct from the missing-rate one. -/
theorem claim_C3_witness :
    simulate_break_even paramsBadDown = .error downMsg ∧ downMsg ≠ noRateMsg :=
  ⟨(claim_C3 paramsBadDown).2.2.1 (by norm_num [paramsBadDown]),
    (claim_C3 paramsBadDown).2.2.2.2⟩

/-- **C4.** For valid parameters the run succeeds (raising nothing), and
the month loop executes at most `max_years*12 + 1` iterations. -/
theorem claim_C4 (p : ScenarioParams)
    (h1 : 0 < p.purchase_price) (h2 : 0 ≤ p.down_payment)
    (h3 : p.down_payment ≤ p.purchase_price)
    (h4 : 0 < p.term_years) (h5 : 0 < p.max_years)
    (h6 : 0 ≤ p.rent_monthly) (h7 : 0 ≤ p.maintenance_monthly)
    (h8 : 0 ≤ p.insurance_monthly) (h9 : 0 ≤ p.other_owner_costs_monthly)
    (h10 : p.fixed_mortgage_rate ≠ none ∨
      ∃ q rest, p.variable_rate_schedule = some (q :: rest)) :
    (∃ res, simulate_break_even p = .ok res) ∧
      (∀ e, simulate_break_even p ≠ .error e) ∧
      simIterations p ≤ p.max_years * 12 + 1 := by
  obtain ⟨r0, hr⟩ := rate_for_month_ok 0 _ _ h10
  obtain ⟨hok, hiter⟩ := simulate_ok p h3 hr
  refine ⟨⟨_, hok⟩, ?_, ?_⟩
  · intro e he
    rw [hok] at he
    exact Except.noConfusion he
  · rw [hiter]
    have := stopMonth_le p
    rw [horizonMonths] at this
    omega

/-- Closed check of **C4** at a concrete valid parameter set. -/
theorem claim_C4_witness :
    (∃ res, simulate_break_even paramsSmall = .ok res) ∧
      simIterations paramsSmall ≤ paramsSmall.max_years * 12 + 1 := by
  have h := claim_C4 paramsSmall
    (by norm_num [paramsSmall]) (by norm_num [paramsSmall])
    (by norm_num [paramsSmall]) (by norm_num [paramsSmall])
    (by norm_num [paramsSmall]) (by norm_num [paramsSmall])
    (by norm_num [paramsSmall]) (by norm_num [paramsSmall])
    (by norm_num [paramsSmall]) (Or.inl (by simp [paramsSmall]))
  exact ⟨h.1, h.2.2⟩

/-- **C9.** Before month 0 the renter's portfolio holds the upfront buy
cash `D + P0*closing_pct`, the owner's portfolio is 0, the balance is the
loan principal, and the same derived figures come back in the result. -/
theorem claim_C9 (p : ScenarioParams) :
    (stateAt p 0).port_rent =
      p.down_payment + p.purchase_price * p.buy_closing_cost_pct ∧
    (stateAt p 0).port_buy = 0 ∧
    (stateAt p 0).balance = p.purchase_price - p.down_payment ∧
    ∀ res, simulate_break_even p = .ok res →
      res.upfront_buy_cash =
          p.down_payment + p.purchase_price * p.buy_closing_cost_pct ∧
        res.buy_closing_cost = p.purchase_price * p.buy_closing_cost_pct := by
  refine ⟨rfl, rfl, rfl, ?_⟩
  intro res h
  obtain ⟨-, hres⟩ := simulate_ok_inv p res h
  rw [hres]
  exact ⟨rfl, rfl⟩

/-- Closed check of **C9** at a concrete successful run. -/
theorem claim_C9_witness :
    ∃ res, simulate_break_even paramsSmall = .ok res ∧
      res.upfront_buy_cash =
        paramsSmall.down_payment +
          paramsSmall.purchase_price * paramsSmall.buy_closing_cost_pct := by
  obtain ⟨r0, hr⟩ := rate_for_month_ok 0 paramsSmall.fixed_mortgage_rate
    paramsSmall.variable_rate_schedule (Or.inl (by simp [paramsSmall]))
  obtain ⟨hok, -⟩ := simulate_ok paramsSmall (by norm_num [paramsSmall]) hr
  exact ⟨_, hok, ((claim_C9 paramsSmall).2.2.2 _ hok).1⟩

/-- **C8.** The amortizing-payment function's branch-by-branch contract,
plus its zero-rate and zero-principal consequences. -/
theorem claim_C8 (principal annual_rate : ℝ) (months : ℤ) :
    (months ≤ 0 → pmt principal annual_rate months = 0) ∧
    (0 < months → |monthly_rate annual_rate| < 1e-12 →
      pmt principal annual_rate months = principal / (months : ℝ)) ∧
    (0 < months → ¬ |monthly_rate annual_rate| < 1e-12 →
      pmt principal annual_rate months =
        principal * monthly_rate annual_rate *
            (1 + monthly_rate annual_rate) ^ months.toNat /
          ((1 + monthly_rate annual_rate) ^ months.toNat - 1)) ∧
    (0 < months → pmt principal 0 months = principal / (months : ℝ)) ∧
    pmt 0 annual_rate months = 0 := by
  refine ⟨?_, ?_, ?_, ?_, ?_⟩
  · intro h
    rw [pmt, if_pos h]
  · intro h hr
    rw [pmt, if_neg (by omega)]
    simp only [if_pos hr]
  · intro h hr
    rw [pmt, if_neg (by omega)]
    simp only [if_neg hr]
    ring
  · intro h
    rw [pmt, if_neg (by omega)]
    have : |monthly_rate 0| < 1e-12 := by
      rw [monthly_rate]
      norm_num
    simp only [if_pos this]
  · rw [pmt]
    by_cases h : months ≤ 0
    · rw [if_pos h]
    · rw [if_neg h]
      by_cases hr : |monthly_rate annual_rate| < 1e-12
      · simp only [if_pos hr, zero_div]
      · simp only [if_neg hr, zero_mul, zero_div]

/-- Closed check of **C8**: concrete instances of each branch. -/
theorem claim_C8_witness :
    pmt 1000 0.12 (-3) = 0 ∧ pmt 1000 0 10 = 1000 / 10 ∧ pmt 0 0.12 10 = 0 := by
  refine ⟨(claim_C8 1000 0.12 (-3)).1 (by norm_num), ?_, (claim_C8 0 0.12 10).2.2.2.2⟩
  have := (claim_C8 1000 0 10).2.2.2.1 (by norm_num)
  rw [this]
  norm_num

/-! ## The rate resolver's contract (C5) -/

/-- A schedule whose start months are ascending. -/
def KeysSorted (l : List (ℕ × ℝ)) : Prop :=
  l.Pairwise (fun a b => a.1 ≤ b.1)

/-- The spec's description of the resolver on a sorted schedule: the rate
of the last entry whose `start_month ≤ m`, defaulting to the first
entry's rate when `m` precedes every entry. -/
def specRate (m : ℕ) (sl : List (ℕ × ℝ)) : ℝ :=
  match (sl.filter (fun q => decide (q.1 ≤ m))).getLast? with
  | some q => q.2
  | none => sl.headI.2

theorem insertByStart_sorted (p : ℕ × ℝ) (l : List (ℕ × ℝ))
    (h : KeysSorted l) : KeysSorted (insertByStart p l) := by
  induction l with
  | nil => exact List.pairwise_singleton _ _
  | cons q rest ih =>
    rw [KeysSorted, List.pairwise_cons] at h
    rw [insertByStart]
    by_cases hq : q.1 ≤ p.1
    · rw [if_pos hq]
      rw [KeysSorted, List.pairwise_cons]
      refine ⟨?_, ih h.2⟩
      intro x hx
      have hmem : x = p ∨ x ∈ rest := by
        clear ih h hq
        induction rest with
        | nil => simpa [insertByStart] using hx
        | cons y ys ihy =>
          rw [insertByStart] at hx
          by_cases hy : y.1 ≤ p.1
          · rw [if_pos hy] at hx
            rcases List.mem_cons.mp hx with rfl | hx'
            · exact Or.inr (List.mem_cons_self _ _)
            · rcases ihy hx' with h' | h'
              · exact Or.inl h'
              · exact Or.inr (List.mem_cons_of_mem _ h')
          · rw [if_neg hy] at hx
            rcases List.mem_cons.mp hx with rfl | hx'
            · exact Or.inl rfl
            · exact Or.inr hx'
      rcases hmem with rfl | hx'
      · exact hq
      · exact h.1 x hx'
    · rw [if_neg hq]
      have hpq : p.1 ≤ q.1 := le_of_not_le hq
      rw [KeysSorted, List.pairwise_cons]
      refine ⟨?_, List.pairwise_cons.mpr h⟩
      intro x hx
      rcases List.mem_cons.mp hx with rfl | hx'
      · exact hpq
      · exact le_trans hpq (h.1 x hx')

theorem sortSchedule_sorted (l : List (ℕ × ℝ)) : KeysSorted (sortSchedule l) := by
  rw [sortSchedule]
  have : ∀ (l' : List (ℕ × ℝ)) (acc : List (ℕ × ℝ)), KeysSorted acc →
      KeysSorted (l'.foldl (fun acc p => insertByStart p acc) acc) := by
    intro l'
    induction l' with
    | nil => intro acc h; exact h
    | cons q rest ih =>
      intro acc h
      exact ih _ (insertByStart_sorted q acc h)
  exact this l [] List.Pairwise.nil

theorem insertByStart_length (p : ℕ × ℝ) (l : List (ℕ × ℝ)) :
    (insertByStart p l).length = l.length + 1 := by
  induction l with
  | nil => rfl
  | cons q rest ih =>
    rw [insertByStart]
    by_cases hq : q.1 ≤ p.1
    · rw [if_pos hq]
      simp [ih]
    · rw [if_neg hq]
      simp

theorem sortSchedule_length (l : List (ℕ × ℝ)) :
    (sortSchedule l).length = l.length := by
  rw [sortSchedule]
  have : ∀ (l' acc : List (ℕ × ℝ)),
      (l'.foldl (fun acc p => insertByStart p acc) acc).length =
        acc.length + l'.length := by
    intro l'
    induction l' with
    | nil => intro acc; simp
    | cons q rest ih =>
      intro acc
      rw [List.foldl_cons, ih, insertByStart_length, List.length_cons]
      omega
  rw [this]
  simp

/-- On a key-sorted list, the resolver's scanning loop returns the rate of
the last entry in force, else the supplied default. -/
theorem scanRate_eq (m : ℕ) (l : List (ℕ × ℝ)) (h : KeysSorted l) (cur : ℝ) :
    scanRate m l cur =
      match (l.filter (fun q => decide (q.1 ≤ m))).getLast? with
      | some q => q.2
      | none => cur := by
  induction l generalizing cur with
  | nil => rfl
  | cons q rest ih =>
    rw [KeysSorted, List.pairwise_cons] at h
    rw [scanRate]
    by_cases hq : q.1 ≤ m
    · rw [if_pos hq, List.filter_cons_of_pos (by simpa using hq), ih h.2 q.2]
      rcases hfl : rest.filter (fun q => decide (q.1 ≤ m)) with _ | ⟨x, xs⟩
      · rw [hfl, List.getLast?_nil, List.getLast?_singleton]
      · rw [hfl, List.getLast?_cons_cons]
        rcases hg : (x :: xs).getLast? with _ | y
        · rw [List.getLast?_eq_none_iff] at hg
          exact List.noConfusion hg
        · rfl
    · rw [if_neg hq, List.filter_cons_of_neg (by simpa using hq)]
      have hnil : rest.filter (fun q => decide (q.1 ≤ m)) = [] := by
        rw [List.filter_eq_nil_iff]
        intro a ha
        simp only [decide_eq_true_eq]
        have := h.1 a ha
        omega
      rw [hnil, List.getLast?_nil]

/-- On a non-empty schedule (and no fixed rate) the resolver returns the
spec's `specRate` of the stably sorted schedule. -/
theorem rate_for_month_schedule (m : ℕ) (l : List (ℕ × ℝ)) (h : l ≠ []) :
    rate_for_month m none (some l) = .ok (specRate m (sortSchedule l)) := by
  rcases l with _ | ⟨q, rest⟩
  · exact absurd rfl h
  · rw [rate_for_month]
    show Except.ok (scanRate m (sortSchedule (q :: rest))
      (sortSchedule (q :: rest)).headI.2) = _
    rw [scanRate_eq m _ (sortSchedule_sorted _), specRate]

/-- The spec's three-segment example schedule. -/
def sched3 : List (ℕ × ℝ) := [(0, 0.065), (24, 0.075), (60, 0.06)]

/-- **C5.** The rate resolver: a fixed rate always wins; otherwise the
last sorted entry in force at `m` applies (the first entry covering all
earlier months); and the documented answers on the example schedule. -/
theorem claim_C5 :
    (∀ (m : ℕ) (r : ℝ) (s : Option (List (ℕ × ℝ))),
      rate_for_month m (some r) s = .ok r) ∧
    (∀ (m : ℕ) (l : List (ℕ × ℝ)), l ≠ [] →
      rate_for_month m none (some l) = .ok (specRate m (sortSchedule l)) ∧
        KeysSorted (sortSchedule l)) ∧
    (rate_for_month 0 none (some sched3) = .ok 0.065 ∧
      rate_for_month 23 none (some sched3) = .ok 0.065 ∧
      rate_for_month 24 none (some sched3) = .ok 0.075 ∧
      rate_for_month 59 none (some sched3) = .ok 0.075 ∧
      rate_for_month 60 none (some sched3) = .ok 0.06 ∧
      rate_for_month 1000 none (some sched3) = .ok 0.06) := by
  refine ⟨fun m r s => rfl,
    fun m l h => ⟨rate_for_month_schedule m l h, sortSchedule_sorted l⟩,
    rfl, rfl, rfl, rfl, rfl, rfl⟩

/-- Closed check of **C5**: the general schedule contract instantiated on
the example schedule at month 30. -/
theorem claim_C5_witness :
    rate_for_month 30 none (some sched3) = .ok (specRate 30 (sortSchedule sched3)) :=
  (claim_C5.2.1 30 sched3 (by simp [sched3])).1

/-! ## Mortgage balance invariants (C6) -/

/-- One amortization step never increases the balance and keeps it
non-negative. -/
theorem balanceUpd_le (p : ScenarioParams) (m : ℕ) (st : SimState)
    (h : 0 ≤ st.balance) :
    balanceUpd p m st ≤ st.balance ∧ 0 ≤ balanceUpd p m st := by
  rw [balanceUpd]
  by_cases hc : m < termMonths p ∧ st.balance > 1e-8
  · rw [if_pos hc]
    set x := min (max (paymentUpd p m st - st.balance * monthly_rate (rateAt p m)) 0)
      st.balance with hx
    have hx0 : 0 ≤ x := le_min (le_max_right _ 0) h
    have hxb : x ≤ st.balance := min_le_right _ _
    constructor
    · linarith
    · linarith
  · rw [if_neg hc]
    exact ⟨le_refl _, h⟩

/-- The balance field of the next state. -/
theorem stateAt_balance_succ (p : ScenarioParams) (m : ℕ) :
    (stateAt p (m + 1)).balance = balanceUpd p m (stateAt p m) := rfl

/-- The balance stays non-negative throughout the trace. -/
theorem balance_nonneg (p : ScenarioParams)
    (hdp : p.down_payment ≤ p.purchase_price) :
    ∀ m, 0 ≤ (stateAt p m).balance := by
  intro m
  induction m with
  | zero =>
    show (0 : ℝ) ≤ p.purchase_price - p.down_payment
    linarith
  | succ m ih =>
    rw [stateAt_balance_succ]
    exact (balanceUpd_le p m (stateAt p m) ih).2

/-- Past the term's end the amortization step is skipped. -/
theorem balanceUpd_frozen_term (p : ScenarioParams) (m : ℕ) (st : SimState)
    (h : termMonths p ≤ m) : balanceUpd p m st = st.balance := by
  rw [balanceUpd, if_neg]
  intro hc
  exact absurd hc.1 (not_lt.mpr h)

/-- With an exhausted balance the amortization step is skipped. -/
theorem balanceUpd_frozen_small (p : ScenarioParams) (m : ℕ) (st : SimState)
    (h : st.balance ≤ 1e-8) : balanceUpd p m st = st.balance := by
  rw [balanceUpd, if_neg]
  intro hc
  exact absurd hc.2 (not_lt.mpr h)

theorem balance_frozen_from_term (p : ScenarioParams) {m : ℕ}
    (hm : termMonths p ≤ m) :
    ∀ k, m ≤ k → (stateAt p k).balance = (stateAt p m).balance := by
  intro k hk
  induction k with
  | zero =>
    have : m = 0 := Nat.le_zero.mp hk
    rw [this]
  | succ k ih =>
    rcases Nat.lt_or_ge m (k + 1) with hlt | hge
    · have hmk : m ≤ k := by omega
      rw [stateAt_balance_succ,
        balanceUpd_frozen_term p k _ (le_trans hm hmk), ih hmk]
    · have : m = k + 1 := le_antisymm hk hge
      rw [this]

theorem balance_frozen_from_small (p : ScenarioParams) {m : ℕ}
    (hm : (stateAt p m).balance ≤ 1e-8) :
    ∀ k, m ≤ k → (stateAt p k).balance = (stateAt p m).balance := by
  intro k hk
  induction k with
  | zero =>
    have : m = 0 := Nat.le_zero.mp hk
    rw [this]
  | succ k ih =>
    rcases Nat.lt_or_ge m (k + 1) with hlt | hge
    · have hmk : m ≤ k := by omega
      have heq := ih hmk
      rw [stateAt_balance_succ, balanceUpd_frozen_small p k _ (by rw [heq]; exact hm),
        heq]
    · have : m = k + 1 := le_antisymm hk hge
      rw [this]

/-- **C6.** Along every run the mortgage balance is non-increasing and
non-negative, and it is frozen from the end of the term on, as well as
from any month at which it has dropped to within `1e-8` of zero. -/
theorem claim_C6 (p : ScenarioParams)
    (hdp : p.down_payment ≤ p.purchase_price) (m : ℕ) :
    (stateAt p (m + 1)).balance ≤ (stateAt p m).balance ∧
    0 ≤ (stateAt p m).balance ∧
    (termMonths p ≤ m →
      ∀ k, m ≤ k → (stateAt p k).balance = (stateAt p m).balance) ∧
    ((stateAt p m).balance ≤ 1e-8 →
      ∀ k, m ≤ k → (stateAt p k).balance = (stateAt p m).balance) := by
  refine ⟨?_, balance_nonneg p hdp m, fun h => balance_frozen_from_term p h,
    fun h => balance_frozen_from_small p h⟩
  rw [stateAt_balance_succ]
  exact (balanceUpd_le p m (stateAt p m) (balance_nonneg p hdp m)).1

/-- Closed check of **C6** at a concrete run and month. -/
theorem claim_C6_witness :
    (stateAt paramsSmall 6).balance ≤ (stateAt paramsSmall 5).balance ∧
      0 ≤ (stateAt paramsSmall 5).balance :=
  ⟨(claim_C6 paramsSmall (by norm_num [paramsSmall]) 5).1,
    (claim_C6 paramsSmall (by norm_num [paramsSmall]) 5).2.1⟩

/-! ## Break-even correctness (C1) -/

/-- Converse characterization: no crossing in the window means `none`. -/
theorem firstCrossBefore_eq_none (p : ScenarioParams) (m : ℕ)
    (h : ∀ j, j < m → ¬ crossAt p j) : firstCrossBefore p m = none := by
  induction m with
  | zero => rfl
  | succ m ih =>
    rw [firstCrossBefore, ih fun j hj => h j (by omega)]
    show (if crossAt p m then some m else none) = none
    exact if_neg (h m (by omega))

/-- History rows only mention months already processed. -/
theorem hist_month_lt (p : ScenarioParams) (m : ℕ) :
    ∀ row ∈ (stateAt p m).history, row.month < m := by
  induction m with
  | zero => intro row hrow; exact absurd hrow (List.not_mem_nil row)
  | succ m ih =>
    intro row hrow
    have : (stateAt p (m + 1)).history = histUpd p m (stateAt p m) := rfl
    rw [this, histUpd] at hrow
    by_cases hc : m % 12 = 0 ∨ beUpd p m (stateAt p m) = some m
    · rw [if_pos hc] at hrow
      rcases List.mem_append.mp hrow with hold | hnew
      · exact lt_trans (ih row hold) (by omega)
      · rcases List.mem_singleton.mp hnew with rfl
        show m < m + 1
        omega
    · rw [if_neg hc] at hrow
      exact lt_trans (ih row hrow) (by omega)

/-- **C1.** The returned `break_even_month` is exactly the first month in
`[0, max_years*12]` at which the comparison-basis owner net worth reaches
the renter's; it is `none` exactly when no such month exists; when found,
`break_even_years = month/12`, the whole result is the trace cut right
after that month, and no later month appears in the history. -/
theorem claim_C1 (p : ScenarioParams) (res : SimResult)
    (h : simulate_break_even p = .ok res) :
    (∀ b, res.break_even_month = some b ↔
      (b ≤ horizonMonths p ∧ crossAt p b ∧ ∀ j, j < b → ¬ crossAt p j)) ∧
    (res.break_even_month = none ↔
      ∀ m, m ≤ horizonMonths p → ¬ crossAt p m) ∧
    (∀ b, res.break_even_month = some b →
      res.break_even_years = some ((b : ℝ) / 12) ∧
      res = mkResult p (stateAt p (b + 1)) ∧
      ∀ row ∈ res.history, row.month ≤ b) ∧
    (res.break_even_month = none → res.break_even_years = none) := by
  obtain ⟨hdp, hres⟩ := simulate_ok_inv p res h
  have hbe : res.break_even_month = firstCrossBefore p (stopMonth p + 1) := by
    rw [hres]
    exact stateAt_break_even p (stopMonth p + 1)
  have hyears_none : res.break_even_month = none → res.break_even_years = none := by
    rw [hres]
    intro hn
    show (match (stateAt p (stopMonth p + 1)).break_even_month with
      | some b => some ((b : ℝ) / 12) | none => none) = none
    rw [show (stateAt p (stopMonth p + 1)).break_even_month = none from hn]
  have hyears_some : ∀ b, res.break_even_month = some b →
      res.break_even_years = some ((b : ℝ) / 12) := by
    rw [hres]
    intro b hb
    show (match (stateAt p (stopMonth p + 1)).break_even_month with
      | some b => some ((b : ℝ) / 12) | none => none) = some ((b : ℝ) / 12)
    rw [show (stateAt p (stopMonth p + 1)).break_even_month = some b from hb]
  rcases hS : firstCrossBefore p (horizonMonths p + 1) with _ | k
  · -- no crossing within the horizon
    have hstop : stopMonth p = horizonMonths p := stopMonth_eq_of_none p hS
    have hnone : res.break_even_month = none := by rw [hbe, hstop]; exact hS
    have hnc := firstCrossBefore_none p hS
    refine ⟨?_, ?_, ?_, ?_⟩
    · intro b
      constructor
      · intro hb; rw [hnone] at hb; exact Option.noConfusion hb
      · rintro ⟨hble, hbc, -⟩
        exact absurd hbc (hnc b (by omega))
    · exact ⟨fun _ m hm => hnc m (by omega), fun _ => hnone⟩
    · intro b hb; rw [hnone] at hb; exact Option.noConfusion hb
    · intro _; exact hyears_none hnone
  · -- first crossing at k
    obtain ⟨hklt, hkc, hkmin⟩ := firstCrossBefore_some p hS
    have hstop : stopMonth p = k := stopMonth_eq_of_some p hS
    have hsome : res.break_even_month = some k := by
      rw [hbe, hstop, firstCrossBefore, firstCrossBefore_eq_none p k hkmin]
      show (if crossAt p k then some k else none) = some k
      exact if_pos hkc
    refine ⟨?_, ?_, ?_, ?_⟩
    · intro b
      constructor
      · intro hb
        rw [hsome] at hb
        obtain rfl : k = b := Option.some.inj hb
        exact ⟨by omega, hkc, hkmin⟩
      · rintro ⟨hble, hbc, hbmin⟩
        obtain rfl : b = k := by
          rcases Nat.lt_trichotomy b k with hlt | heq | hgt
          · exact absurd hbc (hkmin b hlt)
          · exact heq
          · exact absurd hkc (hbmin k hgt)
        exact hsome
    · constructor
      · intro hb; rw [hsome] at hb; exact Option.noConfusion hb
      · intro hall
        exact absurd hkc (hall k (by omega))
    · intro b hb
      rw [hsome] at hb
      obtain rfl : k = b := Option.some.inj hb
      refine ⟨hyears_some k hsome, by rw [hres, hstop], ?_⟩
      intro row hrow
      have : res.history = (stateAt p (k + 1)).history := by rw [hres, hstop]; rfl
      rw [this] at hrow
      have := hist_month_lt p (k + 1) row hrow
      omega
    · intro hb; rw [hsome] at hb; exact Option.noConfusion hb

/-- Closed check of **C1** at a concrete successful run. -/
theorem claim_C1_witness :
    ∃ res, simulate_break_even paramsSmall = .ok res ∧
      (res.break_even_month = none ↔
        ∀ m, m ≤ horizonMonths paramsSmall → ¬ crossAt paramsSmall m) := by
  obtain ⟨r0, hr⟩ := rate_for_month_ok 0 paramsSmall.fixed_mortgage_rate
    paramsSmall.variable_rate_schedule (Or.inl (by simp [paramsSmall]))
  obtain ⟨hok, -⟩ := simulate_ok paramsSmall (by norm_num [paramsSmall]) hr
  exact ⟨_, hok, (claim_C1 paramsSmall _ hok).2.1⟩

/-! ## Checkpoint recording (C7, C10) -/

theorem stateAt_history_succ (p : ScenarioParams) (m : ℕ) :
    (stateAt p (m + 1)).history = histUpd p m (stateAt p m) := rfl

theorem beUpd_eq_firstCross (p : ScenarioParams) (m : ℕ) :
    beUpd p m (stateAt p m) = firstCrossBefore p (m + 1) :=
  stateAt_break_even p (m + 1)

/-- The recorded months are exactly the annual anniversaries and the
first-crossing month among the processed months. -/
theorem hist_months_eq (p : ScenarioParams) (m : ℕ) :
    (stateAt p m).history.map CheckpointRow.month =
      (List.range m).filter
        (fun j => decide (j % 12 = 0) || decide (firstCrossBefore p (j + 1) = some j)) := by
  induction m with
  | zero => rfl
  | succ m ih =>
    rw [stateAt_history_succ, histUpd, List.range_succ, List.filter_append]
    by_cases hc : m % 12 = 0 ∨ beUpd p m (stateAt p m) = some m
    · rw [if_pos hc, List.map_append, ih]
      congr 1
      have hcond : (decide (m % 12 = 0) ||
          decide (firstCrossBefore p (m + 1) = some m)) = true := by
        rcases hc with h | h
        · simp [h]
        · rw [beUpd_eq_firstCross] at h
          simp [h]
      simp only [List.filter, hcond]
      rfl
    · rw [if_neg hc, ih]
      push_neg at hc
      rw [beUpd_eq_firstCross] at hc
      have hcond : (decide (m % 12 = 0) ||
          decide (firstCrossBefore p (m + 1) = some m)) = false := by
        simp [hc.1, hc.2]
      simp only [List.filter, hcond]
      simp

/-- **C7.** A successful run's checkpoint months are strictly increasing
and duplicate-free, contain month 0, every multiple of 12 up to the stop
month, the break-even month when found, and nothing else. -/
theorem claim_C7 (p : ScenarioParams) (res : SimResult)
    (h : simulate_break_even p = .ok res) :
    (res.history.map CheckpointRow.month).Sorted (· < ·) ∧
    (res.history.map CheckpointRow.month).Nodup ∧
    0 ∈ res.history.map CheckpointRow.month ∧
    (∀ j, j ≤ res.break_even_month.getD (horizonMonths p) → j % 12 = 0 →
      j ∈ res.history.map CheckpointRow.month) ∧
    (∀ b, res.break_even_month = some b →
      b ∈ res.history.map CheckpointRow.month) ∧
    (∀ j, j ∈ res.history.map CheckpointRow.month →
      j ≤ res.break_even_month.getD (horizonMonths p) ∧
        (j % 12 = 0 ∨ res.break_even_month = some j)) := by
  obtain ⟨hdp, hres⟩ := simulate_ok_inv p res h
  have hbe : res.break_even_month = firstCrossBefore p (stopMonth p + 1) := by
    rw [hres]
    exact stateAt_break_even p (stopMonth p + 1)
  have hhist : res.history.map CheckpointRow.month =
      (List.range (stopMonth p + 1)).filter
        (fun j => decide (j % 12 = 0) ||
          decide (firstCrossBefore p (j + 1) = some j)) := by
    rw [hres]
    exact hist_months_eq p (stopMonth p + 1)
  -- the stop month is the getD default of the break-even field
  have hS : res.break_even_month.getD (horizonMonths p) = stopMonth p := by
    rcases hS0 : firstCrossBefore p (horizonMonths p + 1) with _ | k
    · rw [hbe, stopMonth_eq_of_none p hS0, hS0]
      rfl
    · have hstop := stopMonth_eq_of_some p hS0
      obtain ⟨hklt, hkc, hkmin⟩ := firstCrossBefore_some p hS0
      have : firstCrossBefore p (stopMonth p + 1) = some k := by
        rw [hstop, firstCrossBefore, firstCrossBefore_eq_none p k hkmin]
        show (if crossAt p k then some k else none) = some k
        exact if_pos hkc
      rw [hbe, this, hstop]
      rfl
  -- the recording predicate restricted to the window equals the claim's
  have hmem : ∀ j, j ∈ res.history.map CheckpointRow.month ↔
      (j ≤ stopMonth p ∧
        (j % 12 = 0 ∨ firstCrossBefore p (j + 1) = some j)) := by
    intro j
    rw [hhist, List.mem_filter, List.mem_range]
    constructor
    · rintro ⟨hj, hcond⟩
      refine ⟨by omega, ?_⟩
      rcases Bool.or_eq_true_iff.mp hcond with hc | hc
      · exact Or.inl (of_decide_eq_true hc)
      · exact Or.inr (of_decide_eq_true hc)
    · rintro ⟨hj, hcond⟩
      refine ⟨by omega, ?_⟩
      rcases hcond with hc | hc
      · exact Bool.or_eq_true_iff.mpr (Or.inl (decide_eq_true hc))
      · exact Bool.or_eq_true_iff.mpr (Or.inr (decide_eq_true hc))
  -- bridging the first-crossing condition with the result field
  have hcross_iff : ∀ j, j ≤ stopMonth p →
      (firstCrossBefore p (j + 1) = some j ↔ res.break_even_month = some j) := by
    intro j hj
    constructor
    · intro hfc
      rw [hbe]
      exact firstCrossBefore_mono p hfc _ (by omega)
    · intro hres_j
      rw [hbe] at hres_j
      obtain ⟨-, hjc, hjmin⟩ := firstCrossBefore_some p hres_j
      rw [firstCrossBefore, firstCrossBefore_eq_none p j hjmin]
      show (if crossAt p j then some j else none) = some j
      exact if_pos hjc
  refine ⟨?_, ?_, ?_, ?_, ?_, ?_⟩
  · rw [hhist]
    exact (List.sorted_lt_range _).filter _
  · rw [hhist]
    exact ((List.sorted_lt_range _).filter _).nodup
  · rw [hmem 0]
    exact ⟨by omega, Or.inl rfl⟩
  · intro j hj hj12
    rw [hmem j]
    exact ⟨by omega, Or.inl hj12⟩
  · intro b hb
    have hbS : b = stopMonth p := by
      rcases hS0 : firstCrossBefore p (horizonMonths p + 1) with _ | k
      · rw [hbe, stopMonth_eq_of_none p hS0, hS0] at hb
        exact Option.noConfusion hb
      · have hstop := stopMonth_eq_of_some p hS0
        obtain ⟨hklt, hkc, hkmin⟩ := firstCrossBefore_some p hS0
        have : firstCrossBefore p (stopMonth p + 1) = some k := by
          rw [hstop, firstCrossBefore, firstCrossBefore_eq_none p k hkmin]
          show (if crossAt p k then some k else none) = some k
          exact if_pos hkc
        rw [hbe, this] at hb
        rw [hstop]
        exact (Option.some.inj hb).symm
    rw [hmem b]
    refine ⟨by omega, Or.inr ?_⟩
    exact (hcross_iff b (by omega)).mpr hb
  · intro j hj
    rw [hmem j] at hj
    rw [hS]
    refine ⟨hj.1, ?_⟩
    rcases hj.2 with hc | hc
    · exact Or.inl hc
    · exact Or.inr ((hcross_iff j hj.1).mp hc)

/-- Closed check of **C7** at a concrete successful run. -/
theorem claim_C7_witness :
    ∃ res, simulate_break_even paramsSmall = .ok res ∧
      0 ∈ res.history.map CheckpointRow.month := by
  obtain ⟨r0, hr⟩ := rate_for_month_ok 0 paramsSmall.fixed_mortgage_rate
    paramsSmall.variable_rate_schedule (Or.inl (by simp [paramsSmall]))
  obtain ⟨hok, -⟩ := simulate_ok paramsSmall (by norm_num [paramsSmall]) hr
  exact ⟨_, hok, (claim_C7 paramsSmall _ hok).2.2.1⟩

/-- Every recorded row is the canonical row of its month. -/
theorem rows_spec (p : ScenarioParams) (m : ℕ) :
    ∀ row ∈ (stateAt p m).history,
      ∃ j, j < m ∧ row = rowUpd p j (stateAt p j) := by
  induction m with
  | zero => intro row hrow; exact absurd hrow (List.not_mem_nil row)
  | succ m ih =>
    intro row hrow
    rw [stateAt_history_succ, histUpd] at hrow
    by_cases hc : m % 12 = 0 ∨ beUpd p m (stateAt p m) = some m
    · rw [if_pos hc] at hrow
      rcases List.mem_append.mp hrow with hold | hnew
      · obtain ⟨j, hj, hrj⟩ := ih row hold
        exact ⟨j, by omega, hrj⟩
      · exact ⟨m, by omega, List.mem_singleton.mp hnew⟩
    · rw [if_neg hc] at hrow
      obtain ⟨j, hj, hrj⟩ := ih row hrow
      exact ⟨j, by omega, hrj⟩

/-- **C10.** Every recorded row carries nominal (undeflated) rate,
balance, home value, outflow and rent — the balance being the one after
that month's amortization — while the two net-worth fields are divided by
the month's deflator exactly when `report_real` is set. -/
theorem claim_C10 (p : ScenarioParams) (res : SimResult)
    (h : simulate_break_even p = .ok res) :
    ∀ row ∈ res.history,
      row.mortgage_rate = rateAt p row.month ∧
      row.mortgage_balance = (stateAt p (row.month + 1)).balance ∧
      row.home_value = grow_monthly p.purchase_price p.home_appreciation row.month ∧
      row.owner_outflow = outflowUpd p row.month (stateAt p row.month) ∧
      row.rent = grow_monthly p.rent_monthly p.rent_growth row.month ∧
      row.nw_buy = (if p.report_real then
          nwBuyUpd p row.month (stateAt p row.month) / deflator p.inflation row.month
        else nwBuyUpd p row.month (stateAt p row.month)) ∧
      row.nw_rent = (if p.report_real then
          portRentUpd p row.month (stateAt p row.month) / deflator p.inflation row.month
        else portRentUpd p row.month (stateAt p row.month)) := by
  obtain ⟨hdp, hres⟩ := simulate_ok_inv p res h
  intro row hrow
  rw [hres] at hrow
  have hrow' : row ∈ (stateAt p (stopMonth p + 1)).history := hrow
  obtain ⟨j, hj, rfl⟩ := rows_spec p (stopMonth p + 1) row hrow'
  exact ⟨rfl, (stateAt_balance_succ p j).symm, rfl, rfl, rfl, rfl, rfl⟩

/-- Closed check of **C10** at a concrete successful run. -/
theorem claim_C10_witness :
    ∃ res, simulate_break_even paramsSmall = .ok res ∧
      ∀ row ∈ res.history,
        row.rent = grow_monthly paramsSmall.rent_monthly paramsSmall.rent_growth
          row.month := by
  obtain ⟨r0, hr⟩ := rate_for_month_ok 0 paramsSmall.fixed_mortgage_rate
    paramsSmall.variable_rate_schedule (Or.inl (by simp [paramsSmall]))
  obtain ⟨hok, -⟩ := simulate_ok paramsSmall (by norm_num [paramsSmall]) hr
  exact ⟨_, hok, fun row hrow =>
    ((claim_C10 paramsSmall _ hok row hrow).2.2.2.2.1 : _)⟩

end

/-! ## Fixed-point interval arithmetic

A small verified interval library whose endpoints are integers at scale
`2⁻⁴⁸`, used to certify the end-to-end default scenario (C2) over its
whole horizon. -/

/-- A fixed-point interval: endpoints are integers denoting multiples of
`2⁻⁴⁸`. -/
structure IV where
  lo : ℤ
  hi : ℤ
  deriving DecidableEq

/-- The fixed-point denominator `2^48`. -/
def fpden : ℕ := 2 ^ 48

namespace IV

/-- The real number `x` lies in the interval `I`. -/
def mem (x : ℝ) (I : IV) : Prop :=
  (I.lo : ℝ) / (fpden : ℝ) ≤ x ∧ x ≤ (I.hi : ℝ) / (fpden : ℝ)

theorem fpden_pos : (0 : ℝ) < (fpden : ℝ) := by
  rw [fpden]; positivity

/-- Integer floor division is below the real quotient. -/
theorem intdiv_le_real (a : ℤ) (b : ℕ) :
    ((a / (b : ℤ) : ℤ) : ℝ) ≤ (a : ℝ) / (b : ℝ) := by
  have h := Rat.floor_intCast_div_natCast a b
  have h2 : ((a / (b : ℤ) : ℤ) : ℚ) ≤ ((a : ℚ) / (b : ℚ)) := by
    rw [← h]; exact Int.floor_le _
  calc ((a / (b : ℤ) : ℤ) : ℝ) = (((a / (b : ℤ) : ℤ) : ℚ) : ℝ) := by push_cast; ring
  _ ≤ (((a : ℚ) / (b : ℚ) : ℚ) : ℝ) := by exact_mod_cast h2
  _ = (a : ℝ) / (b : ℝ) := by push_cast; ring

/-- Integer ceiling division. -/
def cdiv (a : ℤ) (b : ℕ) : ℤ := -((-a) / (b : ℤ))

/-- Integer ceiling division is above the real quotient. -/
theorem le_cdiv_real (a : ℤ) (b : ℕ) :
    (a : ℝ) / (b : ℝ) ≤ ((cdiv a b : ℤ) : ℝ) := by
  have h := intdiv_le_real (-a) b
  push_cast at h
  rw [neg_div] at h
  rw [cdiv]
  push_cast
  linarith

def add (I J : IV) : IV := ⟨I.lo + J.lo, I.hi + J.hi⟩

theorem mem_add {x y : ℝ} {I J : IV} (hx : mem x I) (hy : mem y J) :
    mem (x + y) (add I J) := by
  obtain ⟨h1, h2⟩ := hx
  obtain ⟨h3, h4⟩ := hy
  have hd := fpden_pos
  constructor
  · show ((I.lo + J.lo : ℤ) : ℝ) / (fpden : ℝ) ≤ x + y
    push_cast
    rw [add_div]
    push_cast at h1 h3
    linarith
  · show x + y ≤ ((I.hi + J.hi : ℤ) : ℝ) / (fpden : ℝ)
    push_cast
    rw [add_div]
    push_cast at h2 h4
    linarith

def sub (I J : IV) : IV := ⟨I.lo - J.hi, I.hi - J.lo⟩

theorem mem_sub {x y : ℝ} {I J : IV} (hx : mem x I) (hy : mem y J) :
    mem (x - y) (sub I J) := by
  obtain ⟨h1, h2⟩ := hx
  obtain ⟨h3, h4⟩ := hy
  constructor
  · show ((I.lo - J.hi : ℤ) : ℝ) / (fpden : ℝ) ≤ x - y
    push_cast
    rw [sub_div]
    push_cast at h1 h4
    linarith
  · show x - y ≤ ((I.hi - J.lo : ℤ) : ℝ) / (fpden : ℝ)
    push_cast
    rw [sub_div]
    push_cast at h2 h3
    linarith

def neg (I : IV) : IV := ⟨-I.hi, -I.lo⟩

theorem mem_neg {x : ℝ} {I : IV} (hx : mem x I) : mem (-x) (neg I) := by
  obtain ⟨h1, h2⟩ := hx
  constructor
  · show ((-I.hi : ℤ) : ℝ) / (fpden : ℝ) ≤ -x
    push_cast
    rw [neg_div]
    linarith
  · show -x ≤ ((-I.lo : ℤ) : ℝ) / (fpden : ℝ)
    push_cast
    rw [neg_div]
    linarith

/-- Scaling by a non-negative rational constant `p / q`, with outward
integer rounding. -/
def cmulNN (p q : ℕ) (I : IV) : IV :=
  ⟨(I.lo * (p : ℤ)) / (q : ℤ), cdiv (I.hi * (p : ℤ)) q⟩

theorem mem_cmulNN {x : ℝ} {I : IV} (p q : ℕ) (hq : 0 < q) (hx : mem x I) :
    mem ((p : ℝ) / (q : ℝ) * x) (cmulNN p q I) := by
  obtain ⟨h1, h2⟩ := hx
  have hq' : (0 : ℝ) < (q : ℝ) := by exact_mod_cast hq
  have hd := fpden_pos
  have hpq : (0 : ℝ) ≤ (p : ℝ) / (q : ℝ) := by positivity
  constructor
  · show ((I.lo * (p : ℤ) / (q : ℤ) : ℤ) : ℝ) / (fpden : ℝ) ≤ (p : ℝ) / (q : ℝ) * x
    have hfl := intdiv_le_real (I.lo * (p : ℤ)) q
    push_cast at hfl
    have step1 : ((I.lo * (p : ℤ) / (q : ℤ) : ℤ) : ℝ) / (fpden : ℝ) ≤
        (I.lo : ℝ) * (p : ℝ) / (q : ℝ) / (fpden : ℝ) := by
      apply div_le_div_of_nonneg_right ?_ hd.le
      push_cast
      exact hfl
    refine le_trans step1 ?_
    have heq : (I.lo : ℝ) * (p : ℝ) / (q : ℝ) / (fpden : ℝ) =
        (p : ℝ) / (q : ℝ) * ((I.lo : ℝ) / (fpden : ℝ)) := by ring
    rw [heq]
    exact mul_le_mul_of_nonneg_left h1 hpq
  · show (p : ℝ) / (q : ℝ) * x ≤ ((cdiv (I.hi * (p : ℤ)) q : ℤ) : ℝ) / (fpden : ℝ)
    have hcl := le_cdiv_real (I.hi * (p : ℤ)) q
    push_cast at hcl
    have step1 : (I.hi : ℝ) * (p : ℝ) / (q : ℝ) / (fpden : ℝ) ≤
        ((cdiv (I.hi * (p : ℤ)) q : ℤ) : ℝ) / (fpden : ℝ) := by
      apply div_le_div_of_nonneg_right ?_ hd.le
      push_cast
      exact hcl
    refine le_trans ?_ step1
    have heq : (I.hi : ℝ) * (p : ℝ) / (q : ℝ) / (fpden : ℝ) =
        (p : ℝ) / (q : ℝ) * ((I.hi : ℝ) / (fpden : ℝ)) := by ring
    rw [heq]
    exact mul_le_mul_of_nonneg_left h2 hpq

def mul (I J : IV) : IV :=
  ⟨(min (min (I.lo * J.lo) (I.lo * J.hi)) (min (I.hi * J.lo) (I.hi * J.hi))) /
      ((fpden : ℕ) : ℤ),
    cdiv (max (max (I.lo * J.lo) (I.lo * J.hi)) (max (I.hi * J.lo) (I.hi * J.hi)))
      fpden⟩

theorem mul_sandwich_left {x a b y : ℝ} (h1 : a ≤ x) (h2 : x ≤ b) :
    min (a * y) (b * y) ≤ x * y ∧ x * y ≤ max (a * y) (b * y) := by
  rcases le_or_lt 0 y with hy | hy
  · exact ⟨le_trans (min_le_left _ _) (mul_le_mul_of_nonneg_right h1 hy),
      le_trans (mul_le_mul_of_nonneg_right h2 hy) (le_max_right _ _)⟩
  · exact ⟨le_trans (min_le_right _ _)
        (mul_le_mul_of_nonpos_right h2 (le_of_lt hy)),
      le_trans (mul_le_mul_of_nonpos_right h1 (le_of_lt hy)) (le_max_left _ _)⟩

theorem mul_sandwich_right {y c d x : ℝ} (h1 : c ≤ y) (h2 : y ≤ d) :
    min (x * c) (x * d) ≤ x * y ∧ x * y ≤ max (x * c) (x * d) := by
  rcases le_or_lt 0 x with hx | hx
  · exact ⟨le_trans (min_le_left _ _) (mul_le_mul_of_nonneg_left h1 hx),
      le_trans (mul_le_mul_of_nonneg_left h2 hx) (le_max_right _ _)⟩
  · exact ⟨le_trans (min_le_right _ _)
        (mul_le_mul_of_nonpos_left h2 (le_of_lt hx)),
      le_trans (mul_le_mul_of_nonpos_left h1 (le_of_lt hx)) (le_max_left _ _)⟩

theorem mem_mul {x y : ℝ} {I J : IV} (hx : mem x I) (hy : mem y J) :
    mem (x * y) (mul I J) := by
  obtain ⟨h1, h2⟩ := hx
  obtain ⟨h3, h4⟩ := hy
  have hd := fpden_pos
  have hL := mul_sandwich_left h1 h2 (y := y)
  have hlo1 := (mul_sandwich_right h3 h4 (x := (I.lo : ℝ) / (fpden : ℝ))).1
  have hlo2 := (mul_sandwich_right h3 h4 (x := (I.hi : ℝ) / (fpden : ℝ))).1
  have hhi1 := (mul_sandwich_right h3 h4 (x := (I.lo : ℝ) / (fpden : ℝ))).2
  have hhi2 := (mul_sandwich_right h3 h4 (x := (I.hi : ℝ) / (fpden : ℝ))).2
  have hcorner : ∀ u v : ℤ, ((u * v : ℤ) : ℝ) / (fpden : ℝ) / (fpden : ℝ) =
      ((u : ℝ) / (fpden : ℝ)) * ((v : ℝ) / (fpden : ℝ)) := by
    intro u v
    push_cast
    ring
  constructor
  · show ((min (min (I.lo * J.lo) (I.lo * J.hi)) (min (I.hi * J.lo) (I.hi * J.hi)) /
        ((fpden : ℕ) : ℤ) : ℤ) : ℝ) / (fpden : ℝ) ≤ x * y
    have key : ∀ u v : ℤ,
        (min (min (I.lo * J.lo) (I.lo * J.hi)) (min (I.hi * J.lo) (I.hi * J.hi))
          ≤ u * v) →
        ((min (min (I.lo * J.lo) (I.lo * J.hi)) (min (I.hi * J.lo) (I.hi * J.hi)) /
            ((fpden : ℕ) : ℤ) : ℤ) : ℝ) / (fpden : ℝ) ≤
          ((u : ℝ) / (fpden : ℝ)) * ((v : ℝ) / (fpden : ℝ)) := by
      intro u v huv
      rw [← hcorner u v]
      refine le_trans ((div_le_div_right hd).mpr (intdiv_le_real _ fpden)) ?_
      refine (div_le_div_right hd).mpr ((div_le_div_right hd).mpr ?_)
      exact_mod_cast huv
    refine le_trans (le_min (le_min
        (key I.lo J.lo (le_trans (min_le_left _ _) (min_le_left _ _)))
        (key I.lo J.hi (le_trans (min_le_left _ _) (min_le_right _ _))))
      (le_min
        (key I.hi J.lo (le_trans (min_le_right _ _) (min_le_left _ _)))
        (key I.hi J.hi (le_trans (min_le_right _ _) (min_le_right _ _))))) ?_
    exact le_trans (min_le_min hlo1 hlo2) hL.1
  · show x * y ≤ ((cdiv (max (max (I.lo * J.lo) (I.lo * J.hi))
        (max (I.hi * J.lo) (I.hi * J.hi))) fpden : ℤ) : ℝ) / (fpden : ℝ)
    have key : ∀ u v : ℤ,
        (u * v ≤ max (max (I.lo * J.lo) (I.lo * J.hi))
          (max (I.hi * J.lo) (I.hi * J.hi))) →
        ((u : ℝ) / (fpden : ℝ)) * ((v : ℝ) / (fpden : ℝ)) ≤
          ((cdiv (max (max (I.lo * J.lo) (I.lo * J.hi))
            (max (I.hi * J.lo) (I.hi * J.hi))) fpden : ℤ) : ℝ) / (fpden : ℝ) := by
      intro u v huv
      rw [← hcorner u v]
      refine le_trans ?_ ((div_le_div_right hd).mpr (le_cdiv_real _ fpden))
      refine (div_le_div_right hd).mpr ((div_le_div_right hd).mpr ?_)
      exact_mod_cast huv
    refine le_trans (le_trans hL.2 (max_le_max hhi1 hhi2)) ?_
    exact max_le (max_le
        (key I.lo J.lo (le_trans (le_max_left _ _) (le_max_left _ _)))
        (key I.lo J.hi (le_trans (le_max_right _ _) (le_max_left _ _))))
      (max_le
        (key I.hi J.lo (le_trans (le_max_left _ _) (le_max_right _ _)))
        (key I.hi J.hi (le_trans (le_max_right _ _) (le_max_right _ _))))

/-- Clamp below by zero (`max · 0`). -/
def maxz (I : IV) : IV := ⟨max I.lo 0, max I.hi 0⟩

theorem mem_maxz {x : ℝ} {I : IV} (hx : mem x I) : mem (max x 0) (maxz I) := by
  obtain ⟨h1, h2⟩ := hx
  have hd := fpden_pos
  have hcast : ∀ a : ℤ, ((max a 0 : ℤ) : ℝ) / (fpden : ℝ) =
      max ((a : ℝ) / (fpden : ℝ)) 0 := by
    intro a
    rcases le_total a 0 with h | h
    · rw [max_eq_right h, max_eq_right]
      · norm_num
      · apply div_nonpos_of_nonpos_of_nonneg
        · exact_mod_cast h
        · exact le_of_lt hd
    · rw [max_eq_left h, max_eq_left]
      apply div_nonneg ?_ (le_of_lt hd)
      exact_mod_cast h
  constructor
  · show ((max I.lo 0 : ℤ) : ℝ) / (fpden : ℝ) ≤ max x 0
    rw [hcast]
    exact max_le_max h1 (le_refl 0)
  · show max x 0 ≤ ((max I.hi 0 : ℤ) : ℝ) / (fpden : ℝ)
    rw [hcast]
    exact max_le_max h2 (le_refl 0)

def imin (I J : IV) : IV := ⟨min I.lo J.lo, min I.hi J.hi⟩

theorem mem_imin {x y : ℝ} {I J : IV} (hx : mem x I) (hy : mem y J) :
    mem (min x y) (imin I J) := by
  obtain ⟨h1, h2⟩ := hx
  obtain ⟨h3, h4⟩ := hy
  have hd := fpden_pos
  have hcast : ∀ a b : ℤ, ((min a b : ℤ) : ℝ) / (fpden : ℝ) =
      min ((a : ℝ) / (fpden : ℝ)) ((b : ℝ) / (fpden : ℝ)) := by
    intro a b
    rcases le_total a b with h | h
    · rw [min_eq_left h, min_eq_left]
      exact (div_le_div_right hd).mpr (by exact_mod_cast h)
    · rw [min_eq_right h, min_eq_right]
      exact (div_le_div_right hd).mpr (by exact_mod_cast h)
  constructor
  · show ((min I.lo J.lo : ℤ) : ℝ) / (fpden : ℝ) ≤ min x y
    rw [hcast]
    exact min_le_min h1 h3
  · show min x y ≤ ((min I.hi J.hi : ℤ) : ℝ) / (fpden : ℝ)
    rw [hcast]
    exact min_le_min h2 h4

end IV

/-! ## Dyadic bounds on the scenario's growth roots and payment -/

noncomputable section

/-- The monthly growth factor of an annual factor `x`:
`x ^ (1/12)`, so that `x ^ (m/12) = (r12 x) ^ m`. -/
def r12 (x : ℝ) : ℝ := x ^ ((1 : ℝ) / 12)

theorem r12_pow (x : ℝ) (hx : 0 ≤ x) (m : ℕ) :
    x ^ ((m : ℝ) / 12) = (r12 x) ^ m := by
  rw [r12, ← Real.rpow_natCast (x ^ ((1 : ℝ) / 12)) m, ← Real.rpow_mul hx]
  congr 1
  ring

theorem r12_pow_twelve (x : ℝ) (hx : 0 ≤ x) : (r12 x) ^ (12 : ℕ) = x := by
  rw [r12, ← Real.rpow_natCast (x ^ ((1 : ℝ) / 12)) 12, ← Real.rpow_mul hx]
  norm_num

/-- Rational bracketing of a 12th root via 12th powers. -/
theorem r12_bounds (x : ℝ) (hx : 0 ≤ x) (lq hq : ℚ) (h0' : 0 ≤ hq)
    (hl : ((lq ^ 12 : ℚ) : ℝ) ≤ x) (hh : x ≤ ((hq ^ 12 : ℚ) : ℝ)) :
    (lq : ℝ) ≤ r12 x ∧ r12 x ≤ (hq : ℝ) := by
  have hr0 : 0 ≤ r12 x := Real.rpow_nonneg hx _
  have h12 := r12_pow_twelve x hx
  constructor
  · have hpow : ((lq : ℝ)) ^ (12 : ℕ) ≤ (r12 x) ^ (12 : ℕ) := by
      rw [h12]
      calc ((lq : ℝ)) ^ (12 : ℕ) = ((lq ^ 12 : ℚ) : ℝ) := by push_cast; ring
      _ ≤ x := hl
    exact le_of_pow_le_pow_left₀ (by norm_num) hr0 hpow
  · have hpow : (r12 x) ^ (12 : ℕ) ≤ ((hq : ℝ)) ^ (12 : ℕ) := by
      rw [h12]
      calc x ≤ ((hq ^ 12 : ℚ) : ℝ) := hh
      _ = ((hq : ℝ)) ^ (12 : ℕ) := by push_cast; ring
    exact le_of_pow_le_pow_left₀ (by norm_num) (by exact_mod_cast h0') hpow

/-- Monthly factor of 3.5% annual growth. -/
def aR : ℝ := r12 1.035

/-- Monthly factor of 3% annual growth (also the monthly deflator base). -/
def bR : ℝ := r12 1.03

/-- Monthly factor of 1.5% annual home appreciation. -/
def cR : ℝ := r12 1.015

end

/-- Fixed-point bracket of `aR` (scale `2⁻⁴⁸`). -/
def aIV : IV := ⟨282283062860746, 282283062860747⟩

/-- Fixed-point bracket of `bR`. -/
def bIV : IV := ⟨282169169937377, 282169169937378⟩

/-- Fixed-point bracket of `cR`. -/
def cIV : IV := ⟨281824424436730, 281824424436731⟩

theorem aR_mem : IV.mem aR aIV := by
  have h := r12_bounds 1.035 (by norm_num) (282283062860746 / 2 ^ 48)
    (282283062860747 / 2 ^ 48) (by norm_num)
    (by push_cast; norm_num) (by push_cast; norm_num)
  constructor
  · show ((282283062860746 : ℤ) : ℝ) / (fpden : ℝ) ≤ aR
    rw [show ((fpden : ℕ) : ℝ) = 2 ^ 48 by rw [fpden]; push_cast; norm_num]
    refine le_trans (le_of_eq ?_) h.1
    push_cast
    norm_num
  · show aR ≤ ((282283062860747 : ℤ) : ℝ) / (fpden : ℝ)
    rw [show ((fpden : ℕ) : ℝ) = 2 ^ 48 by rw [fpden]; push_cast; norm_num]
    refine le_trans h.2 (le_of_eq ?_)
    push_cast
    norm_num

theorem bR_mem : IV.mem bR bIV := by
  have h := r12_bounds 1.03 (by norm_num) (282169169937377 / 2 ^ 48)
    (282169169937378 / 2 ^ 48) (by norm_num)
    (by push_cast; norm_num) (by push_cast; norm_num)
  constructor
  · show ((282169169937377 : ℤ) : ℝ) / (fpden : ℝ) ≤ bR
    rw [show ((fpden : ℕ) : ℝ) = 2 ^ 48 by rw [fpden]; push_cast; norm_num]
    refine le_trans (le_of_eq ?_) h.1
    push_cast
    norm_num
  · show bR ≤ ((282169169937378 : ℤ) : ℝ) / (fpden : ℝ)
    rw [show ((fpden : ℕ) : ℝ) = 2 ^ 48 by rw [fpden]; push_cast; norm_num]
    refine le_trans h.2 (le_of_eq ?_)
    push_cast
    norm_num

theorem cR_mem : IV.mem cR cIV := by
  have h := r12_bounds 1.015 (by norm_num) (281824424436730 / 2 ^ 48)
    (281824424436731 / 2 ^ 48) (by norm_num)
    (by push_cast; norm_num) (by push_cast; norm_num)
  constructor
  · show ((281824424436730 : ℤ) : ℝ) / (fpden : ℝ) ≤ cR
    rw [show ((fpden : ℕ) : ℝ) = 2 ^ 48 by rw [fpden]; push_cast; norm_num]
    refine le_trans (le_of_eq ?_) h.1
    push_cast
    norm_num
  · show cR ≤ ((281824424436731 : ℤ) : ℝ) / (fpden : ℝ)
    rw [show ((fpden : ℕ) : ℝ) = 2 ^ 48 by rw [fpden]; push_cast; norm_num]
    refine le_trans h.2 (le_of_eq ?_)
    push_cast
    norm_num

theorem bR_pos : 0 < bR := Real.rpow_pos_of_pos (by norm_num) _

/-- The fixed monthly payment of the default scenario. -/
noncomputable def payC2 : ℝ := pmt 960000 0.065 360

theorem payC2_eq : payC2 =
    960000 * ((13 / 2400 : ℝ) * (2413 / 2400 : ℝ) ^ (360 : ℕ)) /
      ((2413 / 2400 : ℝ) ^ (360 : ℕ) - 1) := by
  rw [payC2, pmt, if_neg (by norm_num : ¬ (360 : ℤ) ≤ 0)]
  rw [if_neg (by
    rw [monthly_rate, abs_of_pos (by norm_num : (0 : ℝ) < 0.065 / 12)]
    norm_num)]
  rw [monthly_rate]
  rw [show ((360 : ℤ).toNat) = 360 from rfl]
  rw [show (0.065 : ℝ) / 12 = 13 / 2400 by norm_num]
  rw [show (1 + (13 : ℝ) / 2400) = 2413 / 2400 by norm_num]

/-- Fixed-point bracket of the scenario's monthly payment. -/
def payIV : IV := ⟨1707948789045430425, 1707948789045430426⟩

theorem payC2_mem : IV.mem payC2 payIV := by
  rw [payC2_eq]
  have hB : (0 : ℝ) < (2413 / 2400 : ℝ) ^ (360 : ℕ) - 1 := by norm_num
  constructor
  · show ((1707948789045430425 : ℤ) : ℝ) / (fpden : ℝ) ≤ _
    rw [show ((fpden : ℕ) : ℝ) = 2 ^ 48 by rw [fpden]; push_cast; norm_num]
    rw [div_le_div_iff (by positivity) hB]
    push_cast
    norm_num
  · show _ ≤ ((1707948789045430426 : ℤ) : ℝ) / (fpden : ℝ)
    rw [show ((fpden : ℕ) : ℝ) = 2 ^ 48 by rw [fpden]; push_cast; norm_num]
    rw [div_le_div_iff hB (by positivity)]
    push_cast
    norm_num

/-! ## The end-to-end default scenario (C2) -/

noncomputable section

/-- The spec's end-to-end scenario. -/
def scenarioC2 : ScenarioParams where
  purchase_price := 1200000
  down_payment := 240000
  term_years := 30
  home_appreciation := 0.015
  investment_return := 0.075
  inflation := 0.03
  fixed_mortgage_rate := some 0.065
  rent_monthly := 5500
  maintenance_monthly := 2200
  insurance_monthly := 150
  other_owner_costs_monthly := 150
  rent_growth := 0.035
  maintenance_growth := 0.035
  insurance_growth := 0.03
  other_owner_costs_growth := 0.03
  buy_closing_cost_pct := 0.02
  sell_cost_pct := 0.06
  max_years := 30
  report_real := true

theorem termMonths_C2 : termMonths scenarioC2 = 360 := rfl

theorem horizonMonths_C2 : horizonMonths scenarioC2 = 360 := rfl

theorem rateAt_C2 (m : ℕ) : rateAt scenarioC2 m = 0.065 := rfl

theorem lastRate_C2 (m : ℕ) : (stateAt scenarioC2 m).last_rate = 0.065 := by
  induction m with
  | zero => rfl
  | succ m ih =>
    show lastRateUpd scenarioC2 m (stateAt scenarioC2 m) = _
    rw [lastRateUpd, rateAt_C2, ih]
    rw [if_neg (by norm_num)]

theorem payment_C2 (m : ℕ) : (stateAt scenarioC2 m).payment = payC2 := by
  induction m with
  | zero =>
    show pmt (1200000 - 240000 : ℝ) 0.065 ((360 : ℕ) : ℤ) = payC2
    rw [payC2]
    norm_num
  | succ m ih =>
    show paymentUpd scenarioC2 m (stateAt scenarioC2 m) = _
    rw [paymentUpd, rateAt_C2, lastRate_C2]
    rw [if_neg (by norm_num)]
    exact ih

theorem rentAt_C2 (m : ℕ) : rentAt scenarioC2 m = 5500 * aR ^ m := by
  show grow_monthly 5500 0.035 m = _
  rw [grow_monthly, show (1 + 0.035 : ℝ) = 1.035 by norm_num,
    r12_pow 1.035 (by norm_num) m]
  rfl

theorem maintAt_C2 (m : ℕ) :
    grow_monthly scenarioC2.maintenance_monthly scenarioC2.maintenance_growth m =
      2200 * aR ^ m := by
  show grow_monthly 2200 0.035 m = _
  rw [grow_monthly, show (1 + 0.035 : ℝ) = 1.035 by norm_num,
    r12_pow 1.035 (by norm_num) m]
  rfl

theorem insAt_C2 (m : ℕ) :
    grow_monthly scenarioC2.insurance_monthly scenarioC2.insurance_growth m =
      150 * bR ^ m := by
  show grow_monthly 150 0.03 m = _
  rw [grow_monthly, show (1 + 0.03 : ℝ) = 1.03 by norm_num,
    r12_pow 1.03 (by norm_num) m]
  rfl

theorem otherAt_C2 (m : ℕ) :
    grow_monthly scenarioC2.other_owner_costs_monthly
      scenarioC2.other_owner_costs_growth m = 150 * bR ^ m := by
  show grow_monthly 150 0.03 m = _
  rw [grow_monthly, show (1 + 0.03 : ℝ) = 1.03 by norm_num,
    r12_pow 1.03 (by norm_num) m]
  rfl

theorem homeValueAt_C2 (m : ℕ) :
    homeValueAt scenarioC2 m = 1200000 * cR ^ m := by
  show grow_monthly 1200000 0.015 m = _
  rw [grow_monthly, show (1 + 0.015 : ℝ) = 1.015 by norm_num,
    r12_pow 1.015 (by norm_num) m]
  rfl

theorem deflator_C2 (m : ℕ) : deflator scenarioC2.inflation m = bR ^ m := by
  show deflator 0.03 m = _
  rw [deflator, show (1 + 0.03 : ℝ) = 1.03 by norm_num,
    r12_pow 1.03 (by norm_num) m]
  rfl

end

/-! ## The certified interval run of the default scenario -/

/-- Interval state mirroring the engine state plus the three growth-power
sequences `aR^m`, `bR^m`, `cR^m`. -/
structure IState where
  bal : IV
  pr : IV
  pb : IV
  am : IV
  bm : IV
  cm : IV

/-- Interval rent at the current month. -/
def irent (s : IState) : IV := IV.cmulNN 5500 1 s.am

/-- Interval maintenance. -/
def imaint (s : IState) : IV := IV.cmulNN 2200 1 s.am

/-- Interval insurance + other owner costs (both grow at 3%). -/
def iinsoth (s : IState) : IV := IV.cmulNN 300 1 s.bm

/-- Interval post-amortization balance. -/
def ibal (m : ℕ) (s : IState) : IV :=
  if 360 ≤ m then s.bal
  else
    IV.sub s.bal
      (IV.imin (IV.maxz (IV.sub payIV (IV.cmulNN 13 2400 s.bal))) s.bal)

/-- Interval owner outflow. -/
def ioutflow (m : ℕ) (s : IState) : IV :=
  if 360 ≤ m then IV.add (imaint s) (iinsoth s)
  else IV.add (IV.add payIV (imaint s)) (iinsoth s)

/-- Interval owner-minus-renter cash-flow difference. -/
def idiff (m : ℕ) (s : IState) : IV := IV.sub (ioutflow m s) (irent s)

/-- Interval grown renter portfolio (before the cash flow). -/
def iprg (s : IState) : IV := IV.cmulNN 161 160 s.pr

/-- Interval grown owner portfolio (before the cash flow). -/
def ipbg (s : IState) : IV := IV.cmulNN 161 160 s.pb

/-- Interval renter portfolio after the month's cash flow; the final
branch covers an undecided cash-flow sign. -/
def ipr (m : ℕ) (s : IState) : IV :=
  if 0 < (idiff m s).lo then IV.add (iprg s) (idiff m s)
  else if (idiff m s).hi ≤ 0 then iprg s
  else ⟨(iprg s).lo, (iprg s).hi + max (idiff m s).hi 0⟩

/-- Interval owner portfolio after the month's cash flow. -/
def ipb (m : ℕ) (s : IState) : IV :=
  if 0 < (idiff m s).lo then ipbg s
  else if (idiff m s).hi ≤ 0 then IV.add (ipbg s) (IV.neg (idiff m s))
  else ⟨(ipbg s).lo, (ipbg s).hi + max (-(idiff m s).lo) 0⟩

/-- Interval home value. -/
def ihv (s : IState) : IV := IV.cmulNN 1200000 1 s.cm

/-- Interval liquidation equity. -/
def iliq (m : ℕ) (s : IState) : IV :=
  IV.maxz (IV.sub (IV.sub (ihv s) (IV.cmulNN 3 50 (ihv s))) (ibal m s))

/-- Interval owner net worth (nominal). -/
def inwb (m : ℕ) (s : IState) : IV := IV.add (iliq m s) (ipb m s)

/-- Month certificate: the amortization branch is decided (the balance is
certainly above the `1e-8` threshold while the term runs) and owner net
worth is certainly below renter net worth. -/
def iok (m : ℕ) (s : IState) : Bool :=
  (decide (360 ≤ m) || decide ((2814750 : ℤ) ≤ s.bal.lo)) &&
    decide ((inwb m s).hi < (ipr m s).lo)

/-- One interval step: the next interval state and this month's
certificate. -/
def istep (m : ℕ) (s : IState) : IState × Bool :=
  (⟨ibal m s, ipr m s, ipb m s, IV.mul s.am aIV, IV.mul s.bm bIV,
    IV.mul s.cm cIV⟩, iok m s)

/-- Run the interval simulation for `fuel` months starting at month `m`,
conjoining the per-month certificates. -/
def iloop : ℕ → ℕ → IState → Bool
  | 0, _, _ => true
  | fuel + 1, m, s =>
    match istep m s with
    | (s', ok) => ok && iloop fuel (m + 1) s'

/-- The interval image of the scenario's initial state. -/
def initIState : IState :=
  ⟨⟨960000 * 2 ^ 48, 960000 * 2 ^ 48⟩, ⟨264000 * 2 ^ 48, 264000 * 2 ^ 48⟩,
    ⟨0, 0⟩, ⟨2 ^ 48, 2 ^ 48⟩, ⟨2 ^ 48, 2 ^ 48⟩, ⟨2 ^ 48, 2 ^ 48⟩⟩

/-- The full-horizon certificate for the default scenario. -/
def certC2 : Bool := iloop 361 0 initIState

set_option maxRecDepth 100000 in
theorem certC2_true : certC2 = true := by decide

/-! ## Soundness of the interval run -/

/-- Convenience form of `IV.mem_cmulNN` taking the scaled value as an
equation. -/
theorem IV.mem_scale {x y : ℝ} {I : IV} (p q : ℕ) (hq : 0 < q)
    (hx : IV.mem x I) (hy : y = (p : ℝ) / (q : ℝ) * x) :
    IV.mem y (IV.cmulNN p q I) := hy ▸ IV.mem_cmulNN p q hq hx

/-- The relation between the canonical trace at month `m` and an interval
state: each engine quantity lies in its interval, alongside the three
growth powers. -/
def InvC2 (m : ℕ) (s : IState) : Prop :=
  IV.mem (stateAt scenarioC2 m).balance s.bal ∧
  IV.mem (stateAt scenarioC2 m).port_rent s.pr ∧
  IV.mem (stateAt scenarioC2 m).port_buy s.pb ∧
  IV.mem (aR ^ m) s.am ∧ IV.mem (bR ^ m) s.bm ∧ IV.mem (cR ^ m) s.cm

theorem stateAt_port_rent_succ (p : ScenarioParams) (m : ℕ) :
    (stateAt p (m + 1)).port_rent = portRentUpd p m (stateAt p m) := rfl

theorem stateAt_port_buy_succ (p : ScenarioParams) (m : ℕ) :
    (stateAt p (m + 1)).port_buy = portBuyUpd p m (stateAt p m) := rfl

theorem paymentUpd_C2 (m : ℕ) :
    paymentUpd scenarioC2 m (stateAt scenarioC2 m) = payC2 := by
  rw [paymentUpd, rateAt_C2, lastRate_C2, if_neg (by norm_num)]
  exact payment_C2 m

theorem balanceUpd_C2_run (m : ℕ) (hm : m < 360)
    (hb : (stateAt scenarioC2 m).balance > 1e-8) :
    balanceUpd scenarioC2 m (stateAt scenarioC2 m) =
      (stateAt scenarioC2 m).balance -
        min (max (payC2 - (stateAt scenarioC2 m).balance * (0.065 / 12)) 0)
          (stateAt scenarioC2 m).balance := by
  rw [balanceUpd,
    if_pos ⟨show m < termMonths scenarioC2 by rw [termMonths_C2]; exact hm, hb⟩,
    paymentUpd_C2, rateAt_C2, monthly_rate]

theorem outflowUpd_C2_run (m : ℕ) (hm : m < 360) :
    outflowUpd scenarioC2 m (stateAt scenarioC2 m) =
      payC2 + 2200 * aR ^ m + 150 * bR ^ m + 150 * bR ^ m := by
  rw [outflowUpd,
    if_pos (show m < termMonths scenarioC2 by rw [termMonths_C2]; exact hm),
    paymentUpd_C2, maintAt_C2, insAt_C2, otherAt_C2]

theorem outflowUpd_C2_post (m : ℕ) (hm : ¬ m < 360) :
    outflowUpd scenarioC2 m (stateAt scenarioC2 m) =
      0 + 2200 * aR ^ m + 150 * bR ^ m + 150 * bR ^ m := by
  rw [outflowUpd,
    if_neg (show ¬ m < termMonths scenarioC2 by rw [termMonths_C2]; exact hm),
    maintAt_C2, insAt_C2, otherAt_C2]

/-- `portRentUpd` with the no-op placeholder removed. -/
theorem portRentUpd_eq (p : ScenarioParams) (m : ℕ) (st : SimState) :
    portRentUpd p m st =
      (if diffUpd p m st > 0 then
        st.port_rent * (1 + monthly_rate p.investment_return) + diffUpd p m st
      else st.port_rent * (1 + monthly_rate p.investment_return)) := by
  rw [portRentUpd]
  simp only [mul_zero, add_zero]

theorem portBuyUpd_eq (p : ScenarioParams) (m : ℕ) (st : SimState) :
    portBuyUpd p m st =
      (if diffUpd p m st > 0 then
        st.port_buy * (1 + monthly_rate p.investment_return)
      else st.port_buy * (1 + monthly_rate p.investment_return) +
        (-(diffUpd p m st))) := by
  rw [portBuyUpd]

/-- In the default scenario the break-even comparison is equivalent to
the nominal comparison: both sides are deflated by the same positive
deflator. -/
theorem crossAt_C2_iff (m : ℕ) :
    crossAt scenarioC2 m ↔
      nwBuyUpd scenarioC2 m (stateAt scenarioC2 m) ≥
        portRentUpd scenarioC2 m (stateAt scenarioC2 m) := by
  have hd : 0 < deflator scenarioC2.inflation m := by
    rw [deflator_C2]
    exact pow_pos bR_pos m
  rw [crossAt, nwBuyCmpUpd, nwRentCmpUpd,
    if_pos (show scenarioC2.report_real = true from rfl),
    if_pos (show scenarioC2.report_real = true from rfl)]
  exact div_le_div_right hd

/-- One interval step is sound: a certified month has no break-even
crossing, and the next interval state brackets the next engine state. -/
theorem istep_sound (m : ℕ) (s : IState) (hInv : InvC2 m s)
    (hok : iok m s = true) :
    ¬ crossAt scenarioC2 m ∧ InvC2 (m + 1) (istep m s).1 := by
  obtain ⟨hbal, hpr, hpb, ham, hbm, hcm⟩ := hInv
  rw [iok, Bool.and_eq_true, Bool.or_eq_true] at hok
  obtain ⟨hbranch, hcmp⟩ := hok
  have hcmp' : (((inwb m s).hi : ℤ) : ℝ) < (((ipr m s).lo : ℤ) : ℝ) := by
    exact_mod_cast of_decide_eq_true hcmp
  have hd := IV.fpden_pos
  -- rent, maintenance and insurance+other
  have hrent : IV.mem (rentAt scenarioC2 m) (irent s) := by
    refine IV.mem_scale 5500 1 (by norm_num) ham ?_
    rw [rentAt_C2]
    push_cast
    ring
  have hmaint : IV.mem (grow_monthly scenarioC2.maintenance_monthly
      scenarioC2.maintenance_growth m) (imaint s) := by
    refine IV.mem_scale 2200 1 (by norm_num) ham ?_
    rw [maintAt_C2]
    push_cast
    ring
  have hinsoth : IV.mem
      (grow_monthly scenarioC2.insurance_monthly scenarioC2.insurance_growth m +
        grow_monthly scenarioC2.other_owner_costs_monthly
          scenarioC2.other_owner_costs_growth m) (iinsoth s) := by
    refine IV.mem_scale 300 1 (by norm_num) hbm ?_
    rw [insAt_C2, otherAt_C2]
    push_cast
    ring
  -- post-amortization balance
  have hbal' : IV.mem (balanceUpd scenarioC2 m (stateAt scenarioC2 m)) (ibal m s) := by
    by_cases hm : 360 ≤ m
    · rw [ibal, if_pos hm,
        balanceUpd_frozen_term scenarioC2 m _ (by rw [termMonths_C2]; exact hm)]
      exact hbal
    · push_neg at hm
      have hblo : (2814750 : ℤ) ≤ s.bal.lo := by
        rcases hbranch with h | h
        · exact absurd (of_decide_eq_true h) (by omega)
        · exact of_decide_eq_true h
      have hbpos : (stateAt scenarioC2 m).balance > 1e-8 := by
        have h1 : ((2814750 : ℤ) : ℝ) / (fpden : ℝ) ≤
            ((s.bal.lo : ℤ) : ℝ) / (fpden : ℝ) := by
          apply (div_le_div_right hd).mpr
          exact_mod_cast hblo
        have h2 : (1e-8 : ℝ) < ((2814750 : ℤ) : ℝ) / (fpden : ℝ) := by
          rw [show ((fpden : ℕ) : ℝ) = 2 ^ 48 by rw [fpden]; push_cast; norm_num]
          norm_num
        exact lt_of_lt_of_le (lt_of_lt_of_le h2 h1) hbal.1
      rw [ibal, if_neg (by omega), balanceUpd_C2_run m hm hbpos]
      refine IV.mem_sub hbal (IV.mem_imin (IV.mem_maxz (IV.mem_sub payC2_mem ?_)) hbal)
      refine IV.mem_scale 13 2400 (by norm_num) hbal ?_
      push_cast
      ring_nf
  -- owner outflow
  have houtflow : IV.mem (outflowUpd scenarioC2 m (stateAt scenarioC2 m))
      (ioutflow m s) := by
    by_cases hm : 360 ≤ m
    · rw [ioutflow, if_pos hm, outflowUpd_C2_post m (by omega)]
      have hmem := IV.mem_add hmaint hinsoth
      rw [maintAt_C2, insAt_C2, otherAt_C2] at hmem
      have heq : (0 : ℝ) + 2200 * aR ^ m + 150 * bR ^ m + 150 * bR ^ m =
          2200 * aR ^ m + (150 * bR ^ m + 150 * bR ^ m) := by ring
      rw [heq]
      exact hmem
    · rw [ioutflow, if_neg hm, outflowUpd_C2_run m (by omega)]
      have hmem := IV.mem_add (IV.mem_add payC2_mem hmaint) hinsoth
      rw [maintAt_C2, insAt_C2, otherAt_C2] at hmem
      have heq : payC2 + 2200 * aR ^ m + 150 * bR ^ m + 150 * bR ^ m =
          payC2 + 2200 * aR ^ m + (150 * bR ^ m + 150 * bR ^ m) := by ring
      rw [heq]
      exact hmem
  -- cash-flow difference
  have hdiff : IV.mem (diffUpd scenarioC2 m (stateAt scenarioC2 m)) (idiff m s) := by
    rw [diffUpd, idiff]
    exact IV.mem_sub houtflow hrent
  -- grown portfolios
  have hprg : IV.mem ((stateAt scenarioC2 m).port_rent *
      (1 + monthly_rate scenarioC2.investment_return)) (iprg s) := by
    refine IV.mem_scale 161 160 (by norm_num) hpr ?_
    show (stateAt scenarioC2 m).port_rent * (1 + monthly_rate 0.075) = _
    rw [monthly_rate]
    push_cast
    ring_nf
  have hpbg : IV.mem ((stateAt scenarioC2 m).port_buy *
      (1 + monthly_rate scenarioC2.investment_return)) (ipbg s) := by
    refine IV.mem_scale 161 160 (by norm_num) hpb ?_
    show (stateAt scenarioC2 m).port_buy * (1 + monthly_rate 0.075) = _
    rw [monthly_rate]
    push_cast
    ring_nf
  -- renter portfolio after the cash flow
  have hpr' : IV.mem (portRentUpd scenarioC2 m (stateAt scenarioC2 m)) (ipr m s) := by
    rw [portRentUpd_eq, ipr]
    by_cases h1 : 0 < (idiff m s).lo
    · rw [if_pos h1]
      have hdpos : diffUpd scenarioC2 m (stateAt scenarioC2 m) > 0 := by
        refine lt_of_lt_of_le ?_ hdiff.1
        apply div_pos ?_ hd
        exact_mod_cast h1
      rw [if_pos hdpos]
      exact IV.mem_add hprg hdiff
    · rw [if_neg h1]
      by_cases h2 : (idiff m s).hi ≤ 0
      · rw [if_pos h2]
        have hdneg : ¬ diffUpd scenarioC2 m (stateAt scenarioC2 m) > 0 := by
          refine not_lt.mpr (le_trans hdiff.2 ?_)
          apply div_nonpos_of_nonpos_of_nonneg ?_ hd.le
          exact_mod_cast h2
        rw [if_neg hdneg]
        exact hprg
      · rw [if_neg h2]
        have hmax0 : (0 : ℝ) ≤ ((max (idiff m s).hi 0 : ℤ) : ℝ) := by
          exact_mod_cast le_max_right (idiff m s).hi 0
        have hmaxhi : (((idiff m s).hi : ℤ) : ℝ) ≤
            ((max (idiff m s).hi 0 : ℤ) : ℝ) := by
          exact_mod_cast le_max_left (idiff m s).hi 0
        by_cases hdp : diffUpd scenarioC2 m (stateAt scenarioC2 m) > 0
        · rw [if_pos hdp]
          constructor
          · show (((iprg s).lo : ℤ) : ℝ) / (fpden : ℝ) ≤ _
            exact le_trans hprg.1 (by linarith)
          · show _ ≤ (((iprg s).hi + max (idiff m s).hi 0 : ℤ) : ℝ) / (fpden : ℝ)
            push_cast
            rw [add_div]
            have hb1 := hprg.2
            have hb2 := le_trans hdiff.2 ((div_le_div_right hd).mpr hmaxhi)
            push_cast at hb1 hb2
            linarith
        · rw [if_neg hdp]
          constructor
          · exact hprg.1
          · show _ ≤ (((iprg s).hi + max (idiff m s).hi 0 : ℤ) : ℝ) / (fpden : ℝ)
            push_cast
            rw [add_div]
            have : (0 : ℝ) ≤ ((max (idiff m s).hi 0 : ℤ) : ℝ) / (fpden : ℝ) :=
              div_nonneg hmax0 hd.le
            have hb1 := hprg.2
            push_cast at hb1 this
            linarith
  -- owner portfolio after the cash flow
  have hpb' : IV.mem (portBuyUpd scenarioC2 m (stateAt scenarioC2 m)) (ipb m s) := by
    rw [portBuyUpd_eq, ipb]
    by_cases h1 : 0 < (idiff m s).lo
    · rw [if_pos h1]
      have hdpos : diffUpd scenarioC2 m (stateAt scenarioC2 m) > 0 := by
        refine lt_of_lt_of_le ?_ hdiff.1
        apply div_pos ?_ hd
        exact_mod_cast h1
      rw [if_pos hdpos]
      exact hpbg
    · rw [if_neg h1]
      by_cases h2 : (idiff m s).hi ≤ 0
      · rw [if_pos h2]
        have hdneg : ¬ diffUpd scenarioC2 m (stateAt scenarioC2 m) > 0 := by
          refine not_lt.mpr (le_trans hdiff.2 ?_)
          apply div_nonpos_of_nonpos_of_nonneg ?_ hd.le
          exact_mod_cast h2
        rw [if_neg hdneg]
        exact IV.mem_add hpbg (IV.mem_neg hdiff)
      · rw [if_neg h2]
        have hmax0 : (0 : ℝ) ≤ ((max (-(idiff m s).lo) 0 : ℤ) : ℝ) := by
          exact_mod_cast le_max_right (-(idiff m s).lo) 0
        have hmaxlo : ((-(idiff m s).lo : ℤ) : ℝ) ≤
            ((max (-(idiff m s).lo) 0 : ℤ) : ℝ) := by
          exact_mod_cast le_max_left (-(idiff m s).lo) 0
        by_cases hdp : diffUpd scenarioC2 m (stateAt scenarioC2 m) > 0
        · rw [if_pos hdp]
          constructor
          · exact hpbg.1
          · show _ ≤ (((ipbg s).hi + max (-(idiff m s).lo) 0 : ℤ) : ℝ) / (fpden : ℝ)
            push_cast
            rw [add_div]
            have hb1 := hpbg.2
            have : (0 : ℝ) ≤ ((max (-(idiff m s).lo) 0 : ℤ) : ℝ) / (fpden : ℝ) :=
              div_nonneg hmax0 hd.le
            push_cast at hb1 this
            linarith
        · rw [if_neg hdp]
          push_neg at hdp
          constructor
          · show (((ipbg s).lo : ℤ) : ℝ) / (fpden : ℝ) ≤ _
            have := hpbg.1
            linarith
          · show _ ≤ (((ipbg s).hi + max (-(idiff m s).lo) 0 : ℤ) : ℝ) / (fpden : ℝ)
            push_cast
            rw [add_div]
            have hb1 := hpbg.2
            have hb2 : -(diffUpd scenarioC2 m (stateAt scenarioC2 m)) ≤
                ((max (-(idiff m s).lo) 0 : ℤ) : ℝ) / (fpden : ℝ) := by
              refine le_trans ?_ ((div_le_div_right hd).mpr hmaxlo)
              have := hdiff.1
              push_cast
              push_cast at this
              rw [neg_div]
              linarith
            push_cast at hb1 hb2
            linarith
  -- home value, liquidation equity and owner net worth
  have hhv : IV.mem (homeValueAt scenarioC2 m) (ihv s) := by
    refine IV.mem_scale 1200000 1 (by norm_num) hcm ?_
    rw [homeValueAt_C2]
    push_cast
    ring
  have hsell : IV.mem (selling_cost (homeValueAt scenarioC2 m)
      scenarioC2.sell_cost_pct) (IV.cmulNN 3 50 (ihv s)) := by
    refine IV.mem_scale 3 50 (by norm_num) hhv ?_
    show homeValueAt scenarioC2 m * (0.06 : ℝ) = _
    push_cast
    ring_nf
  have hnwb : IV.mem (nwBuyUpd scenarioC2 m (stateAt scenarioC2 m)) (inwb m s) := by
    rw [nwBuyUpd, inwb, iliq]
    exact IV.mem_add (IV.mem_maxz (IV.mem_sub (IV.mem_sub hhv hsell) hbal')) hpb'
  -- no crossing this month
  have hlt : nwBuyUpd scenarioC2 m (stateAt scenarioC2 m) <
      portRentUpd scenarioC2 m (stateAt scenarioC2 m) := by
    refine lt_of_le_of_lt hnwb.2 (lt_of_lt_of_le ?_ hpr'.1)
    exact (div_lt_div_right hd).mpr hcmp'
  refine ⟨fun hc => absurd ((crossAt_C2_iff m).mp hc) (not_le.mpr hlt), ?_⟩
  exact ⟨hbal', hpr', hpb',
    by rw [pow_succ]; exact IV.mem_mul ham aR_mem,
    by rw [pow_succ]; exact IV.mem_mul hbm bR_mem,
    by rw [pow_succ]; exact IV.mem_mul hcm cR_mem⟩

/-- A certified interval run excludes break-even crossings at every month
it covers. -/
theorem iloop_sound : ∀ (fuel m : ℕ) (s : IState), InvC2 m s →
    iloop fuel m s = true → ∀ j, m ≤ j → j < m + fuel →
      ¬ crossAt scenarioC2 j := by
  intro fuel
  induction fuel with
  | zero => intro m s _ _ j h1 h2; omega
  | succ fuel ih =>
    intro m s hInv hloop j h1 h2
    have hloop' : (iok m s && iloop fuel (m + 1) (istep m s).1) = true := hloop
    rw [Bool.and_eq_true] at hloop'
    obtain ⟨hok, hrest⟩ := hloop'
    obtain ⟨hnc, hInv'⟩ := istep_sound m s hInv hok
    rcases eq_or_lt_of_le h1 with rfl | hgt
    · exact hnc
    · exact ih (m + 1) (istep m s).1 hInv' hrest j hgt (by omega)

/-- The initial interval state brackets the engine's initial state. -/
theorem invC2_init : InvC2 0 initIState := by
  have hfp : ((fpden : ℕ) : ℝ) = 2 ^ 48 := by
    rw [fpden]; push_cast; norm_num
  refine ⟨⟨?_, ?_⟩, ⟨?_, ?_⟩, ⟨?_, ?_⟩, ⟨?_, ?_⟩, ⟨?_, ?_⟩, ⟨?_, ?_⟩⟩
  · show ((960000 * 2 ^ 48 : ℤ) : ℝ) / (fpden : ℝ) ≤ (1200000 - 240000 : ℝ)
    rw [hfp]; push_cast; norm_num
  · show (1200000 - 240000 : ℝ) ≤ ((960000 * 2 ^ 48 : ℤ) : ℝ) / (fpden : ℝ)
    rw [hfp]; push_cast; norm_num
  · show ((264000 * 2 ^ 48 : ℤ) : ℝ) / (fpden : ℝ) ≤
      (240000 + closing_cost 1200000 0.02 : ℝ)
    rw [hfp, closing_cost]; push_cast; norm_num
  · show (240000 + closing_cost 1200000 0.02 : ℝ) ≤
      ((264000 * 2 ^ 48 : ℤ) : ℝ) / (fpden : ℝ)
    rw [hfp, closing_cost]; push_cast; norm_num
  · show ((0 : ℤ) : ℝ) / (fpden : ℝ) ≤ (0 : ℝ)
    rw [hfp]; norm_num
  · show (0 : ℝ) ≤ ((0 : ℤ) : ℝ) / (fpden : ℝ)
    rw [hfp]; norm_num
  · show ((2 ^ 48 : ℤ) : ℝ) / (fpden : ℝ) ≤ aR ^ 0
    rw [hfp, pow_zero]; push_cast; norm_num
  · show aR ^ 0 ≤ ((2 ^ 48 : ℤ) : ℝ) / (fpden : ℝ)
    rw [hfp, pow_zero]; push_cast; norm_num
  · show ((2 ^ 48 : ℤ) : ℝ) / (fpden : ℝ) ≤ bR ^ 0
    rw [hfp, pow_zero]; push_cast; norm_num
  · show bR ^ 0 ≤ ((2 ^ 48 : ℤ) : ℝ) / (fpden : ℝ)
    rw [hfp, pow_zero]; push_cast; norm_num
  · show ((2 ^ 48 : ℤ) : ℝ) / (fpden : ℝ) ≤ cR ^ 0
    rw [hfp, pow_zero]; push_cast; norm_num
  · show cR ^ 0 ≤ ((2 ^ 48 : ℤ) : ℝ) / (fpden : ℝ)
    rw [hfp, pow_zero]; push_cast; norm_num

/-- Within the 30-year horizon the owner never reaches the renter's net
worth in the default scenario. -/
theorem noCross_C2 : ∀ j, j ≤ 360 → ¬ crossAt scenarioC2 j := by
  intro j hj
  exact iloop_sound 361 0 initIState invC2_init certC2_true j (by omega) (by omega)

/-- The default scenario's run terminates at the horizon without finding
a break-even month. -/
theorem simC2_spec :
    simulate_break_even scenarioC2 =
      .ok (mkResult scenarioC2 (stateAt scenarioC2 361)) ∧
    (stateAt scenarioC2 361).break_even_month = none := by
  have hnone : firstCrossBefore scenarioC2 361 = none :=
    firstCrossBefore_eq_none scenarioC2 361 fun j hj => noCross_C2 j (by omega)
  have hstop : stopMonth scenarioC2 = 360 := by
    have h : firstCrossBefore scenarioC2 (horizonMonths scenarioC2 + 1) = none := by
      rw [horizonMonths_C2]
      exact hnone
    rw [stopMonth_eq_of_none scenarioC2 h, horizonMonths_C2]
  have hdp : scenarioC2.down_payment ≤ scenarioC2.purchase_price := by
    show (240000 : ℝ) ≤ 1200000
    norm_num
  have hr : rate_for_month 0 scenarioC2.fixed_mortgage_rate
      scenarioC2.variable_rate_schedule = .ok 0.065 := rfl
  obtain ⟨hok, -⟩ := simulate_ok scenarioC2 hdp hr
  rw [hstop] at hok
  refine ⟨hok, ?_⟩
  rw [stateAt_break_even]
  exact hnone

theorem mkResult_break_even (p : ScenarioParams) (st : SimState) :
    (mkResult p st).break_even_month = st.break_even_month := rfl

theorem mkResult_history (p : ScenarioParams) (st : SimState) :
    (mkResult p st).history = st.history := rfl

theorem mkResult_years_of_none (p : ScenarioParams) (st : SimState)
    (h : st.break_even_month = none) :
    (mkResult p st).break_even_years = none := by
  show (match st.break_even_month with
    | some b => some ((b : ℝ) / 12) | none => none) = none
  rw [h]

/-- The first recorded row of any trace that has run at least one month
is month 0's row. -/
theorem hist_head (p : ScenarioParams) : ∀ M, 1 ≤ M →
    (stateAt p M).history.head? = some (rowUpd p 0 (stateAt p 0)) := by
  intro M
  induction M with
  | zero => intro h; omega
  | succ M ih =>
    intro _
    rcases Nat.eq_zero_or_pos M with rfl | hM
    · show (histUpd p 0 (stateAt p 0)).head? = _
      rw [histUpd, if_pos (Or.inl rfl)]
      show (((stateAt p 0).history : List CheckpointRow) ++
        [rowUpd p 0 (stateAt p 0)]).head? = _
      rfl
    · have hh := ih hM
      show (histUpd p M (stateAt p M)).head? = _
      rw [histUpd]
      rcases hold : (stateAt p M).history with _ | ⟨x, xs⟩
      · rw [hold] at hh
        exact absurd hh (by simp)
      · rw [hold] at hh
        by_cases hc : M % 12 = 0 ∨ beUpd p M (stateAt p M) = some M
        · rw [if_pos hc]
          exact hh
        · rw [if_neg hc]
          exact hh

theorem payC2_ge : (6067 : ℝ) ≤ payC2 := by
  have h : ((1707948789045430425 : ℤ) : ℝ) / (fpden : ℝ) ≤ payC2 := payC2_mem.1
  refine le_trans ?_ h
  rw [show ((fpden : ℕ) : ℝ) = 2 ^ 48 by rw [fpden]; push_cast; norm_num,
    le_div_iff₀ (by positivity)]
  norm_num

theorem payC2_le : payC2 ≤ (6068 : ℝ) := by
  have h : payC2 ≤ ((1707948789045430426 : ℤ) : ℝ) / (fpden : ℝ) := payC2_mem.2
  refine le_trans h ?_
  rw [show ((fpden : ℕ) : ℝ) = 2 ^ 48 by rw [fpden]; push_cast; norm_num,
    div_le_iff₀ (by positivity)]
  norm_num

/-- The month-0 balance: the principal less the first principal payment. -/
theorem row0_balance :
    balanceUpd scenarioC2 0 (stateAt scenarioC2 0) = 965200 - payC2 := by
  have hb0 : (stateAt scenarioC2 0).balance = 960000 := by
    show (1200000 - 240000 : ℝ) = 960000
    norm_num
  have h1 := payC2_ge
  have h2 := payC2_le
  rw [balanceUpd_C2_run 0 (by omega) (by rw [hb0]; norm_num), hb0,
    show (960000 : ℝ) * (0.065 / 12) = 5200 by norm_num,
    max_eq_left (by linarith), min_eq_left (by linarith)]
  ring

/-- **C2, counterexample.** The end-to-end default scenario does *not*
yield a break-even month: the run succeeds with `break_even_month = None`
(the renter stays ahead for the whole 30-year horizon). -/
theorem claim_C2_counterexample :
    ¬ ∃ (res : SimResult) (b : ℕ),
      simulate_break_even scenarioC2 = .ok res ∧
        res.break_even_month = some b := by
  rintro ⟨res, b, hok, hbe⟩
  obtain ⟨hok', hnone⟩ := simC2_spec
  rw [hok] at hok'
  obtain rfl : res = mkResult scenarioC2 (stateAt scenarioC2 361) :=
    Except.ok.inj hok'
  rw [mkResult_break_even, hnone] at hbe
  exact Option.noConfusion hbe

/-- **C2, amended.** The run of the end-to-end scenario is deterministic
and succeeds, with `break_even_month = None` (no crossing in the
horizon); its month-0 checkpoint has `mortgage_balance` within 1000 of
960000 (it equals `965200 - pmt(960000, 0.065, 360)`, the balance after
the first amortization step) and `owner_outflow` exactly
`pmt(960000, 0.065, 360) + 2200 + 150 + 150`. -/
theorem claim_C2 :
    ∃ res, simulate_break_even scenarioC2 = .ok res ∧
      res.break_even_month = none ∧ res.break_even_years = none ∧
      ∃ row, res.history.head? = some row ∧ row.month = 0 ∧
        |row.mortgage_balance - 960000| ≤ 1000 ∧
        row.owner_outflow = pmt 960000 0.065 360 + 2200 + 150 + 150 := by
  obtain ⟨hok, hnone⟩ := simC2_spec
  refine ⟨_, hok, ?_, ?_, rowUpd scenarioC2 0 (stateAt scenarioC2 0),
    ?_, rfl, ?_, ?_⟩
  · rw [mkResult_break_even]
    exact hnone
  · exact mkResult_years_of_none _ _ hnone
  · rw [mkResult_history]
    exact hist_head scenarioC2 361 (by omega)
  · show |balanceUpd scenarioC2 0 (stateAt scenarioC2 0) - 960000| ≤ 1000
    rw [row0_balance]
    have h1 := payC2_ge
    have h2 := payC2_le
    rw [abs_le]
    constructor
    · linarith
    · linarith
  · show outflowUpd scenarioC2 0 (stateAt scenarioC2 0) =
      pmt 960000 0.065 360 + 2200 + 150 + 150
    rw [outflowUpd_C2_run 0 (by omega), pow_zero, pow_zero]
    show payC2 + 2200 * 1 + 150 * 1 + 150 * 1 = payC2 + 2200 + 150 + 150
    ring
